import Mathlib

/-!
Verification of the variant-aware MCP multiplexing proxy (`package variants`).

The Go sources are shallowly embedded: Go strings become `List Char`
(the sequence of Unicode scalar values of a valid-UTF-8 Go string),
byte slices become `List Nat` with entries below 256, `panic` becomes
`Option`/`Except`, and library calls (`encoding/base64`,
`encoding/json`, `slices.SortStableFunc`) are embedded by executable
Lean functions mirroring their observable behaviour.
-/

namespace Variants

/-- A Go `string`, seen as its sequence of Unicode scalar values. -/
abbrev GoStr := List Char

/-- Shorthand turning a Lean string literal into a `GoStr`. -/
def gs (s : String) : GoStr := s.data

/-! ## base64 (`encoding/base64`, `StdEncoding`) -/

/-- Character `i` of the standard base64 alphabet
`A-Z a-z 0-9 + /` used by `base64.StdEncoding`. -/
def b64Char (i : Nat) : Char :=
  if i < 26 then Char.ofNat (65 + i)
  else if i < 52 then Char.ofNat (97 + (i - 26))
  else if i < 62 then Char.ofNat (48 + (i - 52))
  else if i = 62 then '+'
  else '/'

/-- Inverse alphabet lookup: the 6-bit value of a base64 character,
`none` for characters outside the alphabet (including `=`). -/
def b64Val (c : Char) : Option Nat :=
  if 65 ≤ c.toNat ∧ c.toNat ≤ 90 then some (c.toNat - 65)
  else if 97 ≤ c.toNat ∧ c.toNat ≤ 122 then some (c.toNat - 97 + 26)
  else if 48 ≤ c.toNat ∧ c.toNat ≤ 57 then some (c.toNat - 48 + 52)
  else if c.toNat = 43 then some 62
  else if c.toNat = 47 then some 63
  else none

/-- `base64.StdEncoding.EncodeToString`: groups of three bytes become
four alphabet characters; a final group of one or two bytes is padded
with `==` or `=`. -/
def base64Encode : List Nat → GoStr
  | [] => []
  | [a] => [b64Char (a / 4), b64Char (a % 4 * 16), '=', '=']
  | [a, b] => [b64Char (a / 4), b64Char (a % 4 * 16 + b / 16), b64Char (b % 16 * 4), '=']
  | a :: b :: c :: rest =>
      b64Char (a / 4) :: b64Char (a % 4 * 16 + b / 16) ::
      b64Char (b % 16 * 4 + c / 64) :: b64Char (c % 64) :: base64Encode rest

/-- Decoding loop of `base64.StdEncoding.DecodeString` after newline
filtering: consumes quanta of four characters; `=` padding is accepted
only at the end (one or two characters); anything else outside the
alphabet, or a dangling quantum, is a `CorruptInputError`, modelled as
`none`.  Like Go's default (non-`Strict`) decoder, unused trailing bits
of a padded quantum are discarded rather than checked. -/
def base64DecodeCore : GoStr → Option (List Nat)
  | [] => some []
  | w :: x :: y :: z :: rest =>
      if rest = [] ∧ z = '=' then
        if y = '=' then do
          let a ← b64Val w
          let b ← b64Val x
          pure [a * 4 + b / 16]
        else do
          let a ← b64Val w
          let b ← b64Val x
          let c ← b64Val y
          pure [a * 4 + b / 16, b % 16 * 16 + c / 4]
      else do
        let a ← b64Val w
        let b ← b64Val x
        let c ← b64Val y
        let d ← b64Val z
        let tail ← base64DecodeCore rest
        pure ((a * 4 + b / 16) :: (b % 16 * 16 + c / 4) :: (c % 4 * 64 + d) :: tail)
  | _ => none

/-- `base64.StdEncoding.DecodeString`: the decoder ignores `\r` and
`\n` anywhere in the input, then decodes quanta of four characters. -/
def base64Decode (s : GoStr) : Option (List Nat) :=
  base64DecodeCore (s.filter (fun c => !(c == '\r' || c == '\n')))

theorem b64Val_b64Char : ∀ i : Fin 64, b64Val (b64Char i.val) = some i.val := by decide

theorem b64Char_not_cr_lf : ∀ i : Fin 64, b64Char i.val ≠ '\r' ∧ b64Char i.val ≠ '\n' := by
  decide

theorem b64Val_lt (c : Char) (i : Nat) (h : b64Val c = some i) : i < 64 := by
  unfold b64Val at h
  split_ifs at h <;> simp_all <;> omega

theorem b64Char_ne_pad : ∀ i : Fin 64, b64Char i.val ≠ '=' := by decide

/-- Restatement of the alphabet inverse for a bounded natural number. -/
theorem b64Val_b64Char_of_lt (i : Nat) (h : i < 64) : b64Val (b64Char i) = some i :=
  b64Val_b64Char ⟨i, h⟩

theorem b64Char_ne_pad_of_lt (i : Nat) (h : i < 64) : b64Char i ≠ '=' :=
  b64Char_ne_pad ⟨i, h⟩

theorem base64DecodeCore_encode (bs : List Nat) (h : ∀ b ∈ bs, b < 256) :
    base64DecodeCore (base64Encode bs) = some bs := by
  induction bs using base64Encode.induct with
  | case1 => rfl
  | case2 a =>
      have ha : a < 256 := h a (by simp)
      have e1 := b64Val_b64Char_of_lt (a / 4) (by omega)
      have e2 := b64Val_b64Char_of_lt (a % 4 * 16) (by omega)
      simp only [base64Encode, base64DecodeCore]
      simp [e1, e2, List.cons.injEq]
      omega
  | case3 a b =>
      have ha : a < 256 := h a (by simp)
      have hb : b < 256 := h b (by simp)
      have e1 := b64Val_b64Char_of_lt (a / 4) (by omega)
      have e2 := b64Val_b64Char_of_lt (a % 4 * 16 + b / 16) (by omega)
      have e3 := b64Val_b64Char_of_lt (b % 16 * 4) (by omega)
      have hy := b64Char_ne_pad_of_lt (b % 16 * 4) (by omega)
      simp only [base64Encode, base64DecodeCore]
      simp [e1, e2, e3, hy, List.cons.injEq]
      constructor <;> omega
  | case4 a b c rest ih =>
      have ha : a < 256 := h a (by simp)
      have hb : b < 256 := h b (by simp)
      have hc : c < 256 := h c (by simp)
      have hrest : ∀ x ∈ rest, x < 256 := fun x hx => h x (by simp [hx])
      have e1 := b64Val_b64Char_of_lt (a / 4) (by omega)
      have e2 := b64Val_b64Char_of_lt (a % 4 * 16 + b / 16) (by omega)
      have e3 := b64Val_b64Char_of_lt (b % 16 * 4 + c / 64) (by omega)
      have e4 := b64Val_b64Char_of_lt (c % 64) (by omega)
      have hz := b64Char_ne_pad_of_lt (c % 64) (by omega)
      simp only [base64Encode, base64DecodeCore]
      simp [e1, e2, e3, e4, hz, ih hrest, List.cons.injEq]
      refine ⟨by omega, by omega, by omega⟩

theorem base64Encode_chars (bs : List Nat) (h : ∀ b ∈ bs, b < 256) :
    ∀ ch ∈ base64Encode bs, ch = '=' ∨ ∃ i : Fin 64, ch = b64Char i.val := by
  induction bs using base64Encode.induct with
  | case1 => intro ch hch; simp [base64Encode] at hch
  | case2 a =>
      have ha : a < 256 := h a (by simp)
      intro ch hch
      simp only [base64Encode, List.mem_cons, List.not_mem_nil, or_false] at hch
      rcases hch with rfl | rfl | rfl | rfl
      · exact Or.inr ⟨⟨a / 4, by omega⟩, rfl⟩
      · exact Or.inr ⟨⟨a % 4 * 16, by omega⟩, rfl⟩
      · exact Or.inl rfl
      · exact Or.inl rfl
  | case3 a b =>
      have ha : a < 256 := h a (by simp)
      have hb : b < 256 := h b (by simp)
      intro ch hch
      simp only [base64Encode, List.mem_cons, List.not_mem_nil, or_false] at hch
      rcases hch with rfl | rfl | rfl | rfl
      · exact Or.inr ⟨⟨a / 4, by omega⟩, rfl⟩
      · exact Or.inr ⟨⟨a % 4 * 16 + b / 16, by omega⟩, rfl⟩
      · exact Or.inr ⟨⟨b % 16 * 4, by omega⟩, rfl⟩
      · exact Or.inl rfl
  | case4 a b c rest ih =>
      have ha : a < 256 := h a (by simp)
      have hb : b < 256 := h b (by simp)
      have hc : c < 256 := h c (by simp)
      have hrest : ∀ x ∈ rest, x < 256 := fun x hx => h x (by simp [hx])
      intro ch hch
      simp only [base64Encode, List.mem_cons] at hch
      rcases hch with rfl | rfl | rfl | rfl | hch
      · exact Or.inr ⟨⟨a / 4, by omega⟩, rfl⟩
      · exact Or.inr ⟨⟨a % 4 * 16 + b / 16, by omega⟩, rfl⟩
      · exact Or.inr ⟨⟨b % 16 * 4 + c / 64, by omega⟩, rfl⟩
      · exact Or.inr ⟨⟨c % 64, by omega⟩, rfl⟩
      · exact ih hrest ch hch

theorem base64Encode_no_cr_lf (bs : List Nat) (h : ∀ b ∈ bs, b < 256) :
    (base64Encode bs).filter (fun c => !(c == '\r' || c == '\n')) = base64Encode bs := by
  rw [List.filter_eq_self]
  intro ch hch
  rcases base64Encode_chars bs h ch hch with rfl | ⟨i, rfl⟩
  · decide
  · have h1 := b64Char_not_cr_lf i
    simp [h1.1, h1.2]

/-- Decoding inverts encoding on byte lists. -/
theorem base64Decode_encode (bs : List Nat) (h : ∀ b ∈ bs, b < 256) :
    base64Decode (base64Encode bs) = some bs := by
  unfold base64Decode
  rw [base64Encode_no_cr_lf bs h, base64DecodeCore_encode bs h]

/-! ## Char/UTF-8 helpers -/

theorem char_toNat_ofNat (n : Nat) (h : n.isValidChar) : (Char.ofNat n).toNat = n := by
  unfold Char.ofNat
  rw [dif_pos h]
  unfold Char.ofNatAux Char.toNat
  simp [UInt32.toNat, BitVec.ofNatLt]

theorem char_ofNat_toNat_self (c : Char) : Char.ofNat c.toNat = c := by
  have h : c.toNat.isValidChar := by
    have := c.valid
    unfold Nat.isValidChar
    unfold UInt32.isValidChar Nat.isValidChar at this
    exact this
  unfold Char.ofNat
  rw [dif_pos h]
  unfold Char.ofNatAux
  apply Char.eq_of_val_eq
  apply UInt32.ext
  simp [UInt32.toNat, BitVec.ofNatLt]
  rfl

theorem char_valid_nat (c : Char) :
    c.toNat < 0xd800 ∨ (0xdfff < c.toNat ∧ c.toNat < 0x110000) := by
  have := c.valid
  unfold UInt32.isValidChar Nat.isValidChar at this
  exact this

/-- UTF-8 encoding of one Unicode scalar value, as a byte list
(`utf8.EncodeRune`). -/
def utf8EncodeCharB (c : Char) : List Nat :=
  if c.toNat < 0x80 then [c.toNat]
  else if c.toNat < 0x800 then [0xC0 + c.toNat / 64, 0x80 + c.toNat % 64]
  else if c.toNat < 0x10000 then
    [0xE0 + c.toNat / 4096, 0x80 + c.toNat / 64 % 64, 0x80 + c.toNat % 64]
  else
    [0xF0 + c.toNat / 262144, 0x80 + c.toNat / 4096 % 64,
     0x80 + c.toNat / 64 % 64, 0x80 + c.toNat % 64]

/-- Byte of the lowercase hex digit for `n < 16` (table `"0123456789abcdef"`
used by `encoding/json`). -/
def hexDigitByte (n : Nat) : Nat := if n < 10 then 48 + n else 87 + n

/-! ## `encoding/json` marshalling of Go strings -/

/-- `encoding/json`'s `encodeString` (with the default HTML escaping) of a
single character of a string value: characters of `htmlSafeSet` pass through
verbatim; `"`. `\`, and control characters get escapes (`\n`, `\r`, `\t`,
generic `\u00XX`); `<`, `>`, `&` are written `<`, `>`, `&`;
U+2028/U+2029 are written ` `/` `; everything else is raw UTF-8. -/
def goEscapeChar (c : Char) : List Nat :=
  if c.toNat < 0x80 then
    if 0x20 ≤ c.toNat ∧ c ≠ '"' ∧ c ≠ '\\' ∧ c ≠ '<' ∧ c ≠ '>' ∧ c ≠ '&' then [c.toNat]
    else if c = '"' then [92, 34]
    else if c = '\\' then [92, 92]
    else if c = '\n' then [92, 110]
    else if c = '\r' then [92, 114]
    else if c = '\t' then [92, 116]
    else [92, 117, 48, 48, hexDigitByte (c.toNat / 16), hexDigitByte (c.toNat % 16)]
  else if c.toNat = 0x2028 ∨ c.toNat = 0x2029 then
    [92, 117, 50, 48, 50, hexDigitByte (c.toNat % 16)]
  else utf8EncodeCharB c

/-- `encoding/json` quoting of a whole Go string: a double quote, the
escaped characters, a double quote. -/
def goQuote (s : GoStr) : List Nat := 34 :: s.flatMap goEscapeChar ++ [34]

/-- `json.Marshal` of the Go struct
`variantCursor { VariantID string `v`; InnerCursor string `c` }`:
the bytes of the object with keys `"v"` then `"c"` in struct-field order. -/
def marshalVariantCursor (variantID innerCursor : GoStr) : List Nat :=
  [123, 34, 118, 34, 58] ++ goQuote variantID ++
    [44, 34, 99, 34, 58] ++ goQuote innerCursor ++ [125]

/-! ## JSON values and the `encoding/json` scanner/decoder -/

/-- The JSON value tree produced by `json.Unmarshal` into `any`
(numbers kept as their source literal: their numeric value is never
inspected by this package). -/
inductive JValue where
  | null : JValue
  | bool (b : Bool) : JValue
  | num (lit : GoStr) : JValue
  | str (s : GoStr) : JValue
  | arr (elems : List JValue) : JValue
  | obj (fields : List (GoStr × JValue)) : JValue

/-- Skip JSON insignificant whitespace (space, tab, newline, carriage
return). -/
def skipWs : List Nat → List Nat
  | [] => []
  | b :: rest => if b = 32 ∨ b = 9 ∨ b = 10 ∨ b = 13 then skipWs rest else b :: rest

/-- Value of one hex digit byte (both cases accepted, as in `getu4`). -/
def hexVal (b : Nat) : Option Nat :=
  if 48 ≤ b ∧ b ≤ 57 then some (b - 48)
  else if 97 ≤ b ∧ b ≤ 102 then some (b - 97 + 10)
  else if 65 ≤ b ∧ b ≤ 70 then some (b - 65 + 10)
  else none

/-- Four hex digit bytes of a `\uXXXX` escape. -/
def hex4 (a b c d : Nat) : Option Nat := do
  let va ← hexVal a
  let vb ← hexVal b
  let vc ← hexVal c
  let vd ← hexVal d
  pure (va * 4096 + vb * 256 + vc * 16 + vd)

/-- Prepend a character to the result of a string-body scan. -/
def consStr (c : Char) : Option (GoStr × List Nat) → Option (GoStr × List Nat)
  | some (s, r) => some (c :: s, r)
  | none => none

/-- Scan of a JSON string body (after the opening quote) following the
`encoding/json` scanner and `unquoteBytes`: an unescaped control byte or an
invalid escape is a syntax error; `\uXXXX` escapes combine surrogate pairs
and replace unpaired surrogates with U+FFFD; raw bytes are decoded as UTF-8
by `utf8.DecodeRune` rules (invalid sequences yield U+FFFD and consume one
byte).  Returns the decoded characters and the bytes after the closing
quote.  The fuel argument decrements once per decoded character; since
every character consumes at least one input byte, fuel `length + 1` never
runs out.  `psbStep` handles one input character given the continuation for
the remaining characters. -/
def psbStep (parse : List Nat → Option (GoStr × List Nat)) (b : Nat) (rest : List Nat) :
    Option (GoStr × List Nat) :=
  if b = 34 then some ([], rest)
  else if b = 92 then
    match rest with
    | 34 :: r => consStr '"' (parse r)
    | 92 :: r => consStr '\\' (parse r)
    | 47 :: r => consStr '/' (parse r)
    | 98 :: r => consStr (Char.ofNat 8) (parse r)
    | 102 :: r => consStr (Char.ofNat 12) (parse r)
    | 110 :: r => consStr '\n' (parse r)
    | 114 :: r => consStr '\r' (parse r)
    | 116 :: r => consStr '\t' (parse r)
    | 117 :: h1 :: h2 :: h3 :: h4 :: r =>
      match hex4 h1 h2 h3 h4 with
      | none => none
      | some v =>
        if 0xD800 ≤ v ∧ v ≤ 0xDBFF then
          match r with
          | 92 :: 117 :: g1 :: g2 :: g3 :: g4 :: r2 =>
            match hex4 g1 g2 g3 g4 with
            | some w =>
              if 0xDC00 ≤ w ∧ w ≤ 0xDFFF then
                consStr (Char.ofNat (0x10000 + (v - 0xD800) * 1024 + (w - 0xDC00))) (parse r2)
              else consStr (Char.ofNat 0xFFFD) (parse (92 :: 117 :: g1 :: g2 :: g3 :: g4 :: r2))
            | none => consStr (Char.ofNat 0xFFFD) (parse (92 :: 117 :: g1 :: g2 :: g3 :: g4 :: r2))
          | _ => consStr (Char.ofNat 0xFFFD) (parse r)
        else if 0xDC00 ≤ v ∧ v ≤ 0xDFFF then consStr (Char.ofNat 0xFFFD) (parse r)
        else consStr (Char.ofNat v) (parse r)
    | _ => none
  else if b < 0x20 then none
  else if b < 0x80 then consStr (Char.ofNat b) (parse rest)
  else if b < 0xC2 then consStr (Char.ofNat 0xFFFD) (parse rest)
  else if b ≤ 0xDF then
    match rest with
    | b1 :: r1 =>
      if 0x80 ≤ b1 ∧ b1 ≤ 0xBF then
        consStr (Char.ofNat ((b - 0xC0) * 64 + (b1 - 0x80))) (parse r1)
      else consStr (Char.ofNat 0xFFFD) (parse rest)
    | [] => none
  else if b ≤ 0xEF then
    match rest with
    | b1 :: b2 :: r2 =>
      if (0x80 ≤ b2 ∧ b2 ≤ 0xBF) ∧
          (if b = 0xE0 then 0xA0 ≤ b1 ∧ b1 ≤ 0xBF
           else if b = 0xED then 0x80 ≤ b1 ∧ b1 ≤ 0x9F
           else 0x80 ≤ b1 ∧ b1 ≤ 0xBF) then
        consStr (Char.ofNat ((b - 0xE0) * 4096 + (b1 - 0x80) * 64 + (b2 - 0x80))) (parse r2)
      else consStr (Char.ofNat 0xFFFD) (parse rest)
    | _ => consStr (Char.ofNat 0xFFFD) (parse rest)
  else if b ≤ 0xF4 then
    match rest with
    | b1 :: b2 :: b3 :: r3 =>
      if (0x80 ≤ b2 ∧ b2 ≤ 0xBF) ∧ (0x80 ≤ b3 ∧ b3 ≤ 0xBF) ∧
          (if b = 0xF0 then 0x90 ≤ b1 ∧ b1 ≤ 0xBF
           else if b = 0xF4 then 0x80 ≤ b1 ∧ b1 ≤ 0x8F
           else 0x80 ≤ b1 ∧ b1 ≤ 0xBF) then
        consStr (Char.ofNat ((b - 0xF0) * 262144 + (b1 - 0x80) * 4096 +
          (b2 - 0x80) * 64 + (b3 - 0x80))) (parse r3)
      else consStr (Char.ofNat 0xFFFD) (parse rest)
    | _ => consStr (Char.ofNat 0xFFFD) (parse rest)
  else consStr (Char.ofNat 0xFFFD) (parse rest)

/-- See `psbStep`. -/
def parseStringBody : Nat → List Nat → Option (GoStr × List Nat)
  | 0, _ => none
  | _ + 1, [] => none
  | fuel + 1, b :: rest => psbStep (parseStringBody fuel) b rest

/-- Scan a run of decimal digit bytes. -/
def scanDigits : List Nat → (GoStr × List Nat)
  | [] => ([], [])
  | b :: rest =>
    if 48 ≤ b ∧ b ≤ 57 then
      let p := scanDigits rest
      (Char.ofNat b :: p.1, p.2)
    else ([], b :: rest)

/-- Fraction and exponent part of a JSON number (after the integer part). -/
def scanFracExp (bs : List Nat) : Option (GoStr × List Nat) :=
  let frac : Option (GoStr × List Nat) :=
    match bs with
    | 46 :: r =>
      match scanDigits r with
      | ([], _) => none
      | (ds, r2) => some ('.' :: ds, r2)
    | _ => some ([], bs)
  match frac with
  | none => none
  | some (f, bs2) =>
    match bs2 with
    | 101 :: r | 69 :: r =>
      let sr : GoStr × List Nat :=
        match r with
        | 43 :: r2 => (['+'], r2)
        | 45 :: r2 => (['-'], r2)
        | _ => ([], r)
      match scanDigits sr.2 with
      | ([], _) => none
      | (ds, r3) => some (f ++ 'e' :: sr.1 ++ ds, r3)
    | _ => some (f, bs2)

/-- Scan a JSON number (`-?(0|[1-9][0-9]*)(\.[0-9]+)?([eE][+-]?[0-9]+)?`),
returning the literal characters. -/
def scanNumber (bs : List Nat) : Option (GoStr × List Nat) :=
  let (neg, bs1) : GoStr × List Nat :=
    match bs with
    | 45 :: r => (['-'], r)
    | _ => ([], bs)
  match bs1 with
  | 48 :: r =>
    match scanFracExp r with
    | some (fe, r2) => some (neg ++ '0' :: fe, r2)
    | none => none
  | b :: r =>
    if 49 ≤ b ∧ b ≤ 57 then
      match scanDigits r with
      | (ds, r2) =>
        match scanFracExp r2 with
        | some (fe, r3) => some (neg ++ Char.ofNat b :: ds ++ fe, r3)
        | none => none
    else none
  | [] => none

/-- One step of the JSON value scanner given continuations for objects and
arrays; see `parseValue`. -/
def pvStep (pObj pArr : List Nat → Option (JValue × List Nat)) (bs : List Nat) :
    Option (JValue × List Nat) :=
  match skipWs bs with
  | [] => none
  | b :: rest =>
    if b = 123 then pObj rest
    else if b = 91 then pArr rest
    else if b = 34 then
      (parseStringBody (rest.length + 1) rest).map (fun p => (JValue.str p.1, p.2))
    else if b = 116 then
      match rest with
      | 114 :: 117 :: 101 :: r => some (.bool true, r)
      | _ => none
    else if b = 102 then
      match rest with
      | 97 :: 108 :: 115 :: 101 :: r => some (.bool false, r)
      | _ => none
    else if b = 110 then
      match rest with
      | 117 :: 108 :: 108 :: r => some (.null, r)
      | _ => none
    else if b = 45 ∨ (48 ≤ b ∧ b ≤ 57) then
      (scanNumber (b :: rest)).map (fun p => (JValue.num p.1, p.2))
    else none

/-- Remainder of a JSON object after the opening brace, given the
continuation scanning its members. -/
def poStep (pMem : List Nat → Option (List (GoStr × JValue) × List Nat)) (bs : List Nat) :
    Option (JValue × List Nat) :=
  match skipWs bs with
  | [] => none
  | b :: r =>
    if b = 125 then some (.obj [], r)
    else (pMem (b :: r)).map (fun p => (JValue.obj p.1, p.2))

/-- One `"key": value` member and, after a comma, the rest of the members,
given continuations for values and further members. -/
def pmStep (pv : List Nat → Option (JValue × List Nat))
    (pMem : List Nat → Option (List (GoStr × JValue) × List Nat)) (bs : List Nat) :
    Option (List (GoStr × JValue) × List Nat) :=
  match skipWs bs with
  | [] => none
  | b :: r =>
    if b = 34 then
      match parseStringBody (r.length + 1) r with
      | some (key, r1) =>
        match skipWs r1 with
        | c :: r2 =>
          if c = 58 then
            match pv r2 with
            | some (v, r3) =>
              match skipWs r3 with
              | d :: r4 =>
                if d = 44 then (pMem r4).map (fun p => ((key, v) :: p.1, p.2))
                else if d = 125 then some ([(key, v)], r4)
                else none
              | [] => none
            | none => none
          else none
        | [] => none
      | none => none
    else none

/-- Remainder of a JSON array after the opening bracket. -/
def paStep (pEl : List Nat → Option (List JValue × List Nat)) (bs : List Nat) :
    Option (JValue × List Nat) :=
  match skipWs bs with
  | [] => none
  | b :: r =>
    if b = 93 then some (.arr [], r)
    else (pEl (b :: r)).map (fun p => (JValue.arr p.1, p.2))

/-- One array element and, after a comma, the rest of the elements. -/
def peStep (pv : List Nat → Option (JValue × List Nat))
    (pEl : List Nat → Option (List JValue × List Nat)) (bs : List Nat) :
    Option (List JValue × List Nat) :=
  match pv bs with
  | some (v, r) =>
    match skipWs r with
    | d :: r2 =>
      if d = 44 then (pEl r2).map (fun p => (v :: p.1, p.2))
      else if d = 93 then some ([v], r2)
      else none
    | [] => none
  | none => none

mutual

/-- Fueled recursive-descent scan of one JSON value, following the
`encoding/json` grammar.  The fuel only bounds nesting of the mutual
recursion; at every recursive call at least one input byte has already been
consumed, so fuel `length + 1` never runs out on any input. -/
def parseValue : Nat → List Nat → Option (JValue × List Nat)
  | 0, _ => none
  | fuel + 1, bs => pvStep (parseObjRest fuel) (parseArrRest fuel) bs

/-- Scan the remainder of a JSON object after the opening brace. -/
def parseObjRest : Nat → List Nat → Option (JValue × List Nat)
  | 0, _ => none
  | fuel + 1, bs => poStep (parseMembers fuel) bs

/-- Scan one or more `"key": value` members, ending at the closing brace. -/
def parseMembers : Nat → List Nat → Option (List (GoStr × JValue) × List Nat)
  | 0, _ => none
  | fuel + 1, bs => pmStep (parseValue fuel) (parseMembers fuel) bs

/-- Scan the remainder of a JSON array after the opening bracket. -/
def parseArrRest : Nat → List Nat → Option (JValue × List Nat)
  | 0, _ => none
  | fuel + 1, bs => paStep (parseElems fuel) bs

/-- Scan one or more array elements, ending at the closing bracket. -/
def parseElems : Nat → List Nat → Option (List JValue × List Nat)
  | 0, _ => none
  | fuel + 1, bs => peStep (parseValue fuel) (parseElems fuel) bs

end

/-- Full `encoding/json` syntax pass: one value, then only trailing
whitespace. -/
def parseJsonTop (bs : List Nat) : Option JValue :=
  match parseValue (bs.length + 1) bs with
  | some (v, rest) => if skipWs rest = [] then some v else none
  | none => none

/-- ASCII lowercasing of one character, the effective fold for the pure-ASCII
struct keys `v` and `c`. -/
def asciiLowerChar (c : Char) : Char :=
  if 65 ≤ c.toNat ∧ c.toNat ≤ 90 then Char.ofNat (c.toNat + 32) else c

/-- `encoding/json` field matching: an exact key match, or a
case-insensitive one. -/
def keyMatchesField (k f : GoStr) : Bool := k == f || k.map asciiLowerChar == f

/-- Struct decoding of `json.Unmarshal(data, &wrapped)` for
`variantCursor`: fields start at their zero value `""`; a later duplicate
key overwrites; `null` leaves the field untouched; a non-string value for a
matched key is an `UnmarshalTypeError`; unknown keys are ignored. -/
def decodeVCFields : List (GoStr × JValue) → GoStr → GoStr → Option (GoStr × GoStr)
  | [], v, c => some (v, c)
  | (k, jv) :: rest, v, c =>
    if keyMatchesField k (gs "v") then
      match jv with
      | .str s => decodeVCFields rest s c
      | .null => decodeVCFields rest v c
      | _ => none
    else if keyMatchesField k (gs "c") then
      match jv with
      | .str s => decodeVCFields rest v s
      | .null => decodeVCFields rest v c
      | _ => none
    else decodeVCFields rest v c

/-- `json.Unmarshal` of a byte slice into `variantCursor`: syntax scan, top
value must be an object, then field decoding. -/
def unmarshalVariantCursor (bs : List Nat) : Option (GoStr × GoStr) :=
  match parseJsonTop bs with
  | some (.obj fields) => decodeVCFields fields [] []
  | _ => none

/-! ## The string scanner inverts the marshaller -/

theorem char_toNat_inj {c d : Char} (h : c.toNat = d.toNat) : c = d := by
  rw [← char_ofNat_toNat_self c, ← char_ofNat_toNat_self d, h]

theorem parseStringBody_cons (fuel : Nat) (b : Nat) (rest : List Nat) :
    parseStringBody (fuel + 1) (b :: rest) = psbStep (parseStringBody fuel) b rest := rfl

theorem hexVal_hexDigitByte (m : Nat) (h : m < 16) : hexVal (hexDigitByte m) = some m := by
  unfold hexVal hexDigitByte
  split_ifs <;> first
    | exact congrArg some (by omega)
    | (exfalso; omega)

/-- Scanning one escaped character consumes exactly its escape bytes and
yields the character back. -/
theorem parseStringBody_escStep (c : Char) (rest : List Nat) (fuel : Nat) :
    parseStringBody (fuel + 1) (goEscapeChar c ++ rest) =
      consStr c (parseStringBody fuel rest) := by
  by_cases h80 : c.toNat < 0x80
  · by_cases hsafe : 0x20 ≤ c.toNat ∧ c ≠ '"' ∧ c ≠ '\\' ∧ c ≠ '<' ∧ c ≠ '>' ∧ c ≠ '&'
    · have hesc : goEscapeChar c = [c.toNat] := by
        unfold goEscapeChar
        rw [if_pos h80, if_pos hsafe]
      rw [hesc]
      have h34 : c.toNat ≠ 34 := fun h => hsafe.2.1 (char_toNat_inj h)
      have h92 : c.toNat ≠ 92 := fun h => hsafe.2.2.1 (char_toNat_inj h)
      simp only [List.cons_append, List.nil_append]
      rw [parseStringBody_cons]
      unfold psbStep
      rw [if_neg h34, if_neg h92, if_neg (show ¬(c.toNat < 0x20) by omega), if_pos h80,
        char_ofNat_toNat_self]
    · by_cases hq : c = '"'
      · subst hq
        rw [show goEscapeChar '"' = [92, 34] from by decide]
        simp only [List.cons_append, List.nil_append]
        rw [parseStringBody_cons]
        unfold psbStep
        norm_num
      by_cases hb : c = '\\'
      · subst hb
        rw [show goEscapeChar '\\' = [92, 92] from by decide]
        simp only [List.cons_append, List.nil_append]
        rw [parseStringBody_cons]
        unfold psbStep
        norm_num
      by_cases hlt : c = '<'
      · subst hlt
        rw [show goEscapeChar '<' = [92, 117, 48, 48, 51, 99] from by decide]
        simp only [List.cons_append, List.nil_append]
        rw [parseStringBody_cons]
        unfold psbStep
        norm_num [hex4, hexVal]
      by_cases hgt : c = '>'
      · subst hgt
        rw [show goEscapeChar '>' = [92, 117, 48, 48, 51, 101] from by decide]
        simp only [List.cons_append, List.nil_append]
        rw [parseStringBody_cons]
        unfold psbStep
        norm_num [hex4, hexVal]
      by_cases hamp : c = '&'
      · subst hamp
        rw [show goEscapeChar '&' = [92, 117, 48, 48, 50, 54] from by decide]
        simp only [List.cons_append, List.nil_append]
        rw [parseStringBody_cons]
        unfold psbStep
        norm_num [hex4, hexVal]
      have hctl : c.toNat < 0x20 := by
        rcases Nat.lt_or_ge c.toNat 0x20 with h | h
        · exact h
        · exact absurd ⟨h, hq, hb, hlt, hgt, hamp⟩ hsafe
      by_cases hn : c = '\n'
      · subst hn
        rw [show goEscapeChar '\n' = [92, 110] from by decide]
        simp only [List.cons_append, List.nil_append]
        rw [parseStringBody_cons]
        unfold psbStep
        norm_num
      by_cases hr : c = '\r'
      · subst hr
        rw [show goEscapeChar '\r' = [92, 114] from by decide]
        simp only [List.cons_append, List.nil_append]
        rw [parseStringBody_cons]
        unfold psbStep
        norm_num
      by_cases ht : c = '\t'
      · subst ht
        rw [show goEscapeChar '\t' = [92, 116] from by decide]
        simp only [List.cons_append, List.nil_append]
        rw [parseStringBody_cons]
        unfold psbStep
        norm_num
      -- generic control character, escaped as a lowercase hex pair
      have hesc : goEscapeChar c =
          [92, 117, 48, 48, hexDigitByte (c.toNat / 16), hexDigitByte (c.toNat % 16)] := by
        unfold goEscapeChar
        rw [if_pos h80, if_neg (by rintro ⟨h1, -⟩; omega),
          if_neg hq, if_neg hb, if_neg hn, if_neg hr, if_neg ht]
      rw [hesc]
      simp only [List.cons_append, List.nil_append]
      rw [parseStringBody_cons]
      unfold psbStep
      rw [if_neg (by omega), if_pos rfl]
      simp only [hex4, hexVal_hexDigitByte (c.toNat / 16) (by omega),
        hexVal_hexDigitByte (c.toNat % 16) (by omega)]
      norm_num [hexVal]
      rw [if_neg (by omega), if_neg (by omega)]
      rw [show c.toNat / 16 * 16 + c.toNat % 16 = c.toNat by omega, char_ofNat_toNat_self]
  · by_cases h2829 : c.toNat = 0x2028 ∨ c.toNat = 0x2029
    · have hesc : goEscapeChar c = [92, 117, 50, 48, 50, hexDigitByte (c.toNat % 16)] := by
        unfold goEscapeChar
        rw [if_neg h80, if_pos h2829]
      rw [hesc]
      simp only [List.cons_append, List.nil_append]
      rw [parseStringBody_cons]
      unfold psbStep
      rw [if_neg (by omega), if_pos rfl]
      simp only [hex4, hexVal_hexDigitByte (c.toNat % 16) (by omega)]
      norm_num [hexVal]
      rw [if_neg (by omega), if_neg (by omega)]
      rw [show 8224 + c.toNat % 16 = c.toNat by omega, char_ofNat_toNat_self]
    · have hval := char_valid_nat c
      have hesc : goEscapeChar c = utf8EncodeCharB c := by
        unfold goEscapeChar
        rw [if_neg h80, if_neg h2829]
      rw [hesc]
      by_cases h800 : c.toNat < 0x800
      · have hb : utf8EncodeCharB c = [0xC0 + c.toNat / 64, 0x80 + c.toNat % 64] := by
          unfold utf8EncodeCharB
          rw [if_neg h80, if_pos h800]
        rw [hb]
        simp only [List.cons_append, List.nil_append]
        rw [parseStringBody_cons]
        unfold psbStep
        rw [if_neg (by omega), if_neg (by first | omega), if_neg (by omega),
          if_neg (by first | omega), if_neg (by omega), if_pos (by first | omega)]
        dsimp only
        rw [if_pos (by omega)]
        rw [show (0xC0 + c.toNat / 64 - 0xC0) * 64 + (0x80 + c.toNat % 64 - 0x80) = c.toNat
          by omega, char_ofNat_toNat_self]
      · by_cases h10000 : c.toNat < 0x10000
        · have hb : utf8EncodeCharB c =
              [0xE0 + c.toNat / 4096, 0x80 + c.toNat / 64 % 64, 0x80 + c.toNat % 64] := by
            unfold utf8EncodeCharB
            rw [if_neg h80, if_neg (by omega), if_pos h10000]
          rw [hb]
          simp only [List.cons_append, List.nil_append]
          rw [parseStringBody_cons]
          unfold psbStep
          rw [if_neg (by omega), if_neg (by first | omega), if_neg (by omega),
            if_neg (by first | omega), if_neg (by omega), if_neg (by first | omega),
            if_pos (by omega)]
          dsimp only
          rw [if_pos (show (128 ≤ 128 + c.toNat % 64 ∧ 128 + c.toNat % 64 ≤ 191) ∧ _ by
            refine ⟨by omega, ?_⟩; split_ifs <;> omega)]
          rw [show (0xE0 + c.toNat / 4096 - 0xE0) * 4096 +
            (0x80 + c.toNat / 64 % 64 - 0x80) * 64 + (0x80 + c.toNat % 64 - 0x80) = c.toNat
            by omega, char_ofNat_toNat_self]
        · have hb : utf8EncodeCharB c =
              [0xF0 + c.toNat / 262144, 0x80 + c.toNat / 4096 % 64,
               0x80 + c.toNat / 64 % 64, 0x80 + c.toNat % 64] := by
            unfold utf8EncodeCharB
            rw [if_neg h80, if_neg (by omega), if_neg h10000]
          rw [hb]
          simp only [List.cons_append, List.nil_append]
          rw [parseStringBody_cons]
          unfold psbStep
          rw [if_neg (by omega), if_neg (by first | omega), if_neg (by omega),
            if_neg (by first | omega), if_neg (by omega), if_neg (by first | omega),
            if_neg (by omega), if_pos (by first | omega)]
          dsimp only
          rw [if_pos (show (128 ≤ 128 + c.toNat / 64 % 64 ∧ 128 + c.toNat / 64 % 64 ≤ 191) ∧
              (128 ≤ 128 + c.toNat % 64 ∧ 128 + c.toNat % 64 ≤ 191) ∧ _ by
            refine ⟨by omega, by omega, ?_⟩; split_ifs <;> omega)]
          rw [show (0xF0 + c.toNat / 262144 - 0xF0) * 262144 +
            (0x80 + c.toNat / 4096 % 64 - 0x80) * 4096 +
            (0x80 + c.toNat / 64 % 64 - 0x80) * 64 + (0x80 + c.toNat % 64 - 0x80) = c.toNat
            by omega, char_ofNat_toNat_self]

theorem goEscapeChar_length_pos (c : Char) : 1 ≤ (goEscapeChar c).length := by
  unfold goEscapeChar utf8EncodeCharB
  split_ifs <;> simp

theorem flatMap_goEscapeChar_length (cs : GoStr) :
    cs.length ≤ (cs.flatMap goEscapeChar).length := by
  induction cs with
  | nil => simp
  | cons c cs ih =>
      simp only [List.flatMap_cons, List.length_append, List.length_cons]
      have := goEscapeChar_length_pos c
      omega

/-- The string scanner inverts the escaper on a whole string, given enough
fuel. -/
theorem parseStringBody_print (cs : GoStr) (rest : List Nat) (extra : Nat) :
    parseStringBody (extra + cs.length + 1) (cs.flatMap goEscapeChar ++ 34 :: rest) =
      some (cs, rest) := by
  induction cs with
  | nil =>
      show parseStringBody (extra + 0 + 1) (34 :: rest) = some ([], rest)
      rw [parseStringBody_cons]
      unfold psbStep
      rw [if_pos rfl]
  | cons c cs ih =>
      have harith : extra + (c :: cs).length + 1 = (extra + cs.length + 1) + 1 := by
        simp [List.length_cons]; omega
      rw [harith]
      simp only [List.flatMap_cons, List.append_assoc]
      rw [parseStringBody_escStep c _ (extra + cs.length + 1)]
      rw [ih]
      rfl

theorem parseStringBody_print_of_le (cs : GoStr) (rest : List Nat) (fuel : Nat)
    (h : cs.length + 1 ≤ fuel) :
    parseStringBody fuel (cs.flatMap goEscapeChar ++ 34 :: rest) = some (cs, rest) := by
  obtain ⟨extra, rfl⟩ : ∃ e, fuel = e + cs.length + 1 := ⟨fuel - cs.length - 1, by omega⟩
  exact parseStringBody_print cs rest extra

theorem parseValue_succ (fuel : Nat) (bs : List Nat) :
    parseValue (fuel + 1) bs = pvStep (parseObjRest fuel) (parseArrRest fuel) bs := rfl

theorem parseObjRest_succ (fuel : Nat) (bs : List Nat) :
    parseObjRest (fuel + 1) bs = poStep (parseMembers fuel) bs := rfl

theorem parseMembers_succ (fuel : Nat) (bs : List Nat) :
    parseMembers (fuel + 1) bs = pmStep (parseValue fuel) (parseMembers fuel) bs := rfl

theorem skipWs_cons_of (b : Nat) (x : List Nat) (h : ¬(b = 32 ∨ b = 9 ∨ b = 10 ∨ b = 13)) :
    skipWs (b :: x) = b :: x := by
  unfold skipWs
  rw [if_neg h]

/-- `parseValue` on a marshalled string literal. -/
theorem parseValue_goQuote (s : GoStr) (rest : List Nat) (fuel : Nat) :
    parseValue (fuel + 1) (goQuote s ++ rest) = some (.str s, rest) := by
  unfold goQuote
  simp only [List.cons_append, List.append_assoc, List.nil_append]
  rw [parseValue_succ]
  unfold pvStep
  rw [skipWs_cons_of _ _ (by omega)]
  dsimp only
  rw [parseStringBody_print_of_le s rest _ (by
    have := flatMap_goEscapeChar_length s
    simp only [List.length_append, List.length_cons]
    omega)]
  norm_num

theorem parseStringBody_ascii_key (b : Nat) (tail : List Nat) (fuel : Nat)
    (h1 : 0x20 ≤ b) (h2 : b < 0x80) (h3 : b ≠ 34) (h4 : b ≠ 92) :
    parseStringBody (fuel + 1 + 1) (b :: 34 :: tail) = some ([Char.ofNat b], tail) := by
  rw [parseStringBody_cons]
  unfold psbStep
  rw [if_neg h3, if_neg h4, if_neg (by omega), if_pos h2]
  rw [parseStringBody_cons]
  unfold psbStep
  rw [if_pos rfl]
  rfl

/-- `parseValue` on the exact byte output of `marshalVariantCursor`. -/
theorem parseValue_marshalVC (v c : GoStr) (fuel : Nat) :
    parseValue (fuel + 1 + 1 + 1 + 1 + 1) (marshalVariantCursor v c) =
      some (.obj [(gs "v", .str v), (gs "c", .str c)], []) := by
  unfold marshalVariantCursor
  simp only [List.cons_append, List.nil_append, List.append_assoc]
  rw [parseValue_succ]
  unfold pvStep
  rw [skipWs_cons_of _ _ (by omega)]
  dsimp only
  rw [if_pos rfl]
  rw [parseObjRest_succ]
  unfold poStep
  rw [skipWs_cons_of _ _ (by omega)]
  dsimp only
  rw [if_neg (by omega)]
  rw [parseMembers_succ]
  unfold pmStep
  rw [skipWs_cons_of _ _ (by omega)]
  dsimp only
  rw [if_pos rfl]
  simp only [List.length_cons]
  rw [parseStringBody_ascii_key 118 _ _ (by omega) (by omega) (by omega) (by omega)]
  dsimp only
  rw [skipWs_cons_of _ _ (by omega)]
  dsimp only
  rw [if_pos rfl]
  rw [parseValue_goQuote]
  dsimp only
  rw [skipWs_cons_of _ _ (by omega)]
  dsimp only
  rw [if_pos rfl]
  rw [parseMembers_succ]
  unfold pmStep
  rw [skipWs_cons_of _ _ (by omega)]
  dsimp only
  rw [if_pos rfl]
  simp only [List.length_cons]
  rw [parseStringBody_ascii_key 99 _ _ (by omega) (by omega) (by omega) (by omega)]
  dsimp only
  rw [skipWs_cons_of _ _ (by omega)]
  dsimp only
  rw [if_pos rfl]
  rw [parseValue_goQuote]
  dsimp only
  rw [skipWs_cons_of _ _ (by omega)]
  dsimp only
  rw [if_neg (by omega), if_pos rfl]
  rfl

theorem goQuote_length (s : GoStr) : (goQuote s).length = (s.flatMap goEscapeChar).length + 2 := by
  simp [goQuote]

theorem marshalVariantCursor_length (v c : GoStr) :
    (marshalVariantCursor v c).length =
      (v.flatMap goEscapeChar).length + (c.flatMap goEscapeChar).length + 15 := by
  simp [marshalVariantCursor, goQuote]
  omega

/-- The full syntax pass accepts exactly the marshalled object. -/
theorem parseJsonTop_marshalVC (v c : GoStr) :
    parseJsonTop (marshalVariantCursor v c) =
      some (.obj [(gs "v", .str v), (gs "c", .str c)]) := by
  unfold parseJsonTop
  have hlen : (marshalVariantCursor v c).length + 1 =
      ((marshalVariantCursor v c).length - 4) + 1 + 1 + 1 + 1 + 1 := by
    rw [marshalVariantCursor_length]
    omega
  rw [hlen, parseValue_marshalVC]
  rfl

/-- `json.Unmarshal` into `variantCursor` inverts `json.Marshal`. -/
theorem unmarshalVariantCursor_marshal (v c : GoStr) :
    unmarshalVariantCursor (marshalVariantCursor v c) = some (v, c) := by
  unfold unmarshalVariantCursor
  rw [parseJsonTop_marshalVC]
  show decodeVCFields [(gs "v", .str v), (gs "c", .str c)] [] [] = some (v, c)
  unfold decodeVCFields
  rw [if_pos (by decide)]
  unfold decodeVCFields
  rw [if_neg (by decide), if_pos (by decide)]
  rfl

/-! ## Byte bounds for the marshalled output -/

theorem utf8EncodeCharB_lt_256 (c : Char) : ∀ b ∈ utf8EncodeCharB c, b < 256 := by
  have hval := char_valid_nat c
  unfold utf8EncodeCharB
  split_ifs <;> intro b hb <;> simp only [List.mem_cons, List.not_mem_nil, or_false] at hb <;>
    rcases hb with rfl | rfl | rfl | rfl <;> omega

theorem goEscapeChar_lt_256 (c : Char) : ∀ b ∈ goEscapeChar c, b < 256 := by
  intro b hb
  unfold goEscapeChar at hb
  split_ifs at hb
  all_goals first
    | exact utf8EncodeCharB_lt_256 c b hb
    | (fin_cases hb <;> first
        | omega
        | (unfold hexDigitByte; split_ifs <;> omega))

theorem flatMap_goEscapeChar_lt_256 (s : GoStr) : ∀ b ∈ s.flatMap goEscapeChar, b < 256 := by
  intro b hb
  rcases List.mem_flatMap.mp hb with ⟨ch, -, h⟩
  exact goEscapeChar_lt_256 ch b h

theorem goQuote_lt_256 (s : GoStr) : ∀ b ∈ goQuote s, b < 256 := by
  intro b hb
  simp only [goQuote, List.mem_cons, List.mem_append, List.not_mem_nil, or_false] at hb
  rcases hb with (rfl | h) | rfl
  · omega
  · exact flatMap_goEscapeChar_lt_256 s b h
  · omega

theorem marshalVariantCursor_lt_256 (v c : GoStr) :
    ∀ b ∈ marshalVariantCursor v c, b < 256 := by
  intro b hb
  unfold marshalVariantCursor at hb
  rcases List.mem_append.mp hb with hb | h
  · rcases List.mem_append.mp hb with hb | h
    · rcases List.mem_append.mp hb with hb | h
      · rcases List.mem_append.mp hb with h | h
        · fin_cases h <;> omega
        · exact goQuote_lt_256 v b h
      · fin_cases h <;> omega
    · exact goQuote_lt_256 c b h
  · fin_cases h
    omega

/-! ## JSON-RPC errors and the cursor codec (`wrapCursor` / `unwrapCursor`) -/

/-- A `jsonrpc.Error`: code, message, and the parsed form of its JSON
`Data` payload (`none` models a nil/empty `json.RawMessage`). -/
structure JsonRpcError where
  code : Int
  message : String
  data : Option JValue := none

/-- `jsonrpc.CodeInvalidParams`. -/
def codeInvalidParams : Int := -32602

/-- `jsonrpc.CodeMethodNotFound`. -/
def codeMethodNotFound : Int := -32601

/-- An error of this package: either a `*jsonrpc.Error` (which
`errors.As` can extract) or any other Go error. -/
inductive GoError where
  | jsonrpc (e : JsonRpcError) : GoError
  | other (msg : String) : GoError

/-- `wrapCursor` wraps a cursor from an inner server with the variant ID:
empty in, empty out; otherwise base64 of the JSON marshalling of
`variantCursor{VariantID: variantID, InnerCursor: cursor}`. -/
def wrapCursor (cursor : GoStr) (variantID : GoStr) : GoStr :=
  if cursor = [] then []
  else base64Encode (marshalVariantCursor variantID cursor)

/-- `unwrapCursor` validates and unwraps a cursor for the expected variant:
empty unwraps to empty; base64 or JSON failures are
`-32602 "Invalid cursor format"`; a variant mismatch is
`-32602 "Cursor invalid for requested variant"` carrying `cursorVariant`
and `requestedVariant`; otherwise the inner cursor is returned. -/
def unwrapCursor (cursor : GoStr) (expectedVariant : GoStr) : Except JsonRpcError GoStr :=
  if cursor = [] then .ok []
  else
    match base64Decode cursor with
    | none => .error { code := codeInvalidParams, message := "Invalid cursor format" }
    | some data =>
      match unmarshalVariantCursor data with
      | none => .error { code := codeInvalidParams, message := "Invalid cursor format" }
      | some (vid, inner) =>
        if vid ≠ expectedVariant then
          .error { code := codeInvalidParams,
                   message := "Cursor invalid for requested variant",
                   data := some (.obj [(gs "cursorVariant", .str vid),
                                       (gs "requestedVariant", .str expectedVariant)]) }
        else .ok inner

theorem wrapCursor_ne_nil (c v : GoStr) (hc : c ≠ []) : wrapCursor c v ≠ [] := by
  unfold wrapCursor
  rw [if_neg hc]
  have hshape : marshalVariantCursor v c =
      123 :: 34 :: 118 :: ([34, 58] ++ goQuote v ++
        ([44, 34, 99, 34, 58] ++ goQuote c ++ [125])) := by
    simp [marshalVariantCursor]
  rw [hshape]
  simp [base64Encode]

/-- Round trip: unwrapping a wrapped non-empty cursor for the same variant
returns the inner cursor. -/
theorem unwrapCursor_wrapCursor (c v : GoStr) (hc : c ≠ []) :
    unwrapCursor (wrapCursor c v) v = .ok c := by
  unfold unwrapCursor
  rw [if_neg (wrapCursor_ne_nil c v hc)]
  unfold wrapCursor
  rw [if_neg hc]
  rw [base64Decode_encode _ (marshalVariantCursor_lt_256 v c)]
  dsimp only
  rw [unmarshalVariantCursor_marshal]
  dsimp only
  rw [if_neg (by simp)]

/-- Cross-variant use: unwrapping a wrapped non-empty cursor for a
different variant fails with invalid-params and both IDs in the data. -/
theorem unwrapCursor_wrapCursor_mismatch (c v w : GoStr) (hc : c ≠ []) (hvw : w ≠ v) :
    unwrapCursor (wrapCursor c v) w =
      .error { code := codeInvalidParams,
               message := "Cursor invalid for requested variant",
               data := some (.obj [(gs "cursorVariant", .str v),
                                   (gs "requestedVariant", .str w)]) } := by
  unfold unwrapCursor
  rw [if_neg (wrapCursor_ne_nil c v hc)]
  unfold wrapCursor
  rw [if_neg hc]
  rw [base64Decode_encode _ (marshalVariantCursor_lt_256 v c)]
  dsimp only
  rw [unmarshalVariantCursor_marshal]
  dsimp only
  rw [if_pos (fun h => hvw h.symm)]

/-! ## Variant data model (`types.go`) -/

/-- `VariantStatus` constants. -/
def Stable : GoStr := gs "stable"

/-- See `Stable`. -/
def Experimental : GoStr := gs "experimental"

/-- See `Stable`. -/
def Deprecated : GoStr := gs "deprecated"

/-- `DeprecationInfo`: migration guidance for deprecated variants.
`replacement` and `removalDate` carry `omitempty`, so the empty string
means absent. -/
structure DeprecationInfo where
  message : GoStr
  replacement : GoStr := []
  removalDate : GoStr := []
deriving DecidableEq

/-- `ServerVariant`: a server capability variant.  `priority` is the
unexported field set by `WithVariant` and read through `Priority()`. -/
structure ServerVariant where
  ID : GoStr
  Description : GoStr := []
  Hints : Option (List (GoStr × GoStr)) := none
  priority : Int := 0
  Status : GoStr := []
  deprecationInfo : Option DeprecationInfo := none
deriving DecidableEq

/-- `ServerVariant.Priority()`. -/
def ServerVariant.Priority (v : ServerVariant) : Int := v.priority

/-- `VariantHints`: client-provided ranking hints; `Hints` maps keys to
arbitrary JSON values (`map[string]any`). -/
structure VariantHints where
  Description : GoStr := []
  Hints : Option (List (GoStr × JValue)) := none

/-- `RankingFunc` (context argument dropped: it is never inspected). -/
def RankingFunc : Type := VariantHints → List ServerVariant → List ServerVariant

/-! ## Ranking engine (`ranking.go`) -/

/-- `statusWeight`: sort weight for a `VariantStatus`; the empty status
shares weight 0 with `stable`, unknown statuses weigh 3. -/
def statusWeight (s : GoStr) : Int :=
  if s = Stable ∨ s = [] then 0
  else if s = Experimental then 1
  else if s = Deprecated then 2
  else 3

/-- Two-complement wrap-around into the range of Go's 64-bit `int`
(`[-2^63, 2^63)`): the value of a Go `int` arithmetic result.  The
numerals are `2^63` and `2^64`. -/
def wrapInt64 (n : Int) : Int :=
  (n + 9223372036854775808) % 18446744073709551616 - 9223372036854775808

/-- The comparison function passed to `slices.SortStableFunc` by
`defaultRankingFunc`: priority difference — computed, as in the Go
source, on the machine `int`, so it wraps on overflow — then
status-weight difference (weights are `0..3`, that difference never
overflows). -/
def cmpVariant (a b : ServerVariant) : Int :=
  if a.Priority ≠ b.Priority then wrapInt64 (a.Priority - b.Priority)
  else statusWeight a.Status - statusWeight b.Status

/-- Insert into a sorted list, before the first element the new one may
precede; the auxiliary step of `sortStableFunc`. -/
def insertBy (le : α → α → Bool) (x : α) : List α → List α
  | [] => [x]
  | y :: ys => if le x y then x :: y :: ys else y :: insertBy le x ys

/-- Stable insertion sort; see `sortStableFunc`. -/
def sortStableBy (le : α → α → Bool) : List α → List α
  | [] => []
  | x :: xs => insertBy le x (sortStableBy le xs)

/-- `slices.SortStableFunc(l, cmp)`: a stable sort by `cmp`.  A stable
sort's output is uniquely determined by the comparison, so the insertion
sort here is observationally the Go function. -/
def sortStableFunc (cmp : α → α → Int) (l : List α) : List α :=
  sortStableBy (fun a b => cmp a b ≤ 0) l

/-- `defaultRankingFunc`: sort by priority (lowest first), status weight
as tie-break; ignores the hints. -/
def defaultRankingFunc (_hints : VariantHints) (vs : List ServerVariant) : List ServerVariant :=
  sortStableFunc cmpVariant vs

/-! ## Inner sessions and the dispatcher types (`dispatch.go`, `session.go`) -/

/-- Parameters of a list RPC (`ListToolsParams` etc.); only the cursor is
inspected by the proxy. -/
structure ListParams where
  cursor : GoStr := []

/-- Result of a list RPC; `payload` stands for the items, which the proxy
forwards untouched. -/
structure ListResult where
  nextCursor : GoStr := []
  payload : JValue := .null

/-- Request metadata (`_meta`): a JSON object. -/
def Meta : Type := List (GoStr × JValue)

/-- `CallToolParams` after the proxy's raw-to-client conversion. -/
structure CallToolParams where
  meta : Option Meta := none
  name : GoStr := []
  arguments : JValue := .null

/-- `CallToolParamsRaw` as produced by the server SDK (raw argument
bytes, modelled as the parsed JSON value). -/
structure CallToolParamsRaw where
  meta : Option Meta := none
  name : GoStr := []
  arguments : JValue := .null

/-- `ReadResourceParams`. -/
structure ReadResourceParams where
  uri : GoStr := []

/-- `GetPromptParams`. -/
structure GetPromptParams where
  name : GoStr := []

/-- `SubscribeParams`. -/
structure SubscribeParams where
  uri : GoStr := []

/-- `UnsubscribeParams`. -/
structure UnsubscribeParams where
  uri : GoStr := []

/-- `CompleteParams`; opaque to the proxy. -/
structure CompleteParams where
  payload : JValue := .null

/-- An inner `mcp.ClientSession`, abstracted as the record of its RPC
behaviours.  A `none` result models a nil result pointer. -/
structure InnerSession where
  listTools : Option ListParams → Except GoError (Option ListResult)
  listResources : Option ListParams → Except GoError (Option ListResult)
  listPrompts : Option ListParams → Except GoError (Option ListResult)
  listResourceTemplates : Option ListParams → Except GoError (Option ListResult)
  callTool : CallToolParams → Except GoError JValue
  readResource : ReadResourceParams → Except GoError JValue
  getPrompt : GetPromptParams → Except GoError JValue
  subscribe : SubscribeParams → Except GoError Unit
  unsubscribe : UnsubscribeParams → Except GoError Unit
  complete : CompleteParams → Except GoError JValue

/-- `innerConnection`: the client session for one inner server.  Its
`cleanupFn` is observable only through the close log of the session
lifecycle model. -/
structure InnerConnection where
  clientSession : InnerSession

/-- The method-specific payload of a routed request, as produced by the
SDK; a handler's type assertion yields `none` when the payload is not of
the method's type (mirroring `p, _ := params.(*T)`). -/
inductive RoutedParams where
  | listP (p : Option ListParams) : RoutedParams
  | callToolP (p : Option CallToolParamsRaw) : RoutedParams
  | readResourceP (p : Option ReadResourceParams) : RoutedParams
  | getPromptP (p : Option GetPromptParams) : RoutedParams
  | subscribeP (p : Option SubscribeParams) : RoutedParams
  | unsubscribeP (p : Option UnsubscribeParams) : RoutedParams
  | completeP (p : Option CompleteParams) : RoutedParams
  | noParams : RoutedParams

/-- A routed `mcp.Request`, decomposed into the `_meta` map of its params
(`none` when the params are nil, typed-nil, or carry no meta) and the
method-specific payload. -/
structure RoutedRequest where
  meta : Option Meta := none
  params : RoutedParams := .noParams

/-- The per-request variant selector key
(`params._meta["io.modelcontextprotocol/server-variant"]`). -/
def metaKeyVariant : GoStr := gs "io.modelcontextprotocol/server-variant"

/-- The capability extension key
(`capabilities.experimental["io.modelcontextprotocol/server-variants"]`). -/
def extensionID : GoStr := gs "io.modelcontextprotocol/server-variants"

/-- `variantIDFromMeta`: the `_meta` variant ID of a request, `""` when
absent, non-string, or when the params are nil / typed-nil. -/
def variantIDFromMeta (req : RoutedRequest) : GoStr :=
  match req.meta with
  | none => []
  | some m =>
    match m.lookup metaKeyVariant with
    | some (.str id) => id
    | _ => []

/-! ## Registry and server (`server.go`) -/

/-- A backend, abstracted by the outcome its `connect` produces for the
session being created. -/
structure Backend where
  connectResult : Except GoError InnerConnection

/-- `variantEntry`: a `ServerVariant` bound to its backend. -/
structure variantEntry where
  variant : ServerVariant
  backend : Backend

/-- `Server`: the registry (variants in registration order) and the
optional custom ranking function.  `impl` and the stateless shared state
are not needed by any claim. -/
structure Server where
  variants : List variantEntry := []
  rankingFunc : Option RankingFunc := none

/-- `Server.addVariant`: duplicate-ID registration panics (modelled as
`none`); otherwise the priority is recorded on the descriptor and the
entry appended. -/
def Server.addVariant (s : Server) (v : ServerVariant) (b : Backend) (priority : Int) :
    Option Server :=
  if s.variants.any (fun e => e.variant.ID == v.ID) then none
  else some { s with variants :=
    s.variants ++ [{ variant := { v with priority := priority }, backend := b }] }

/-- `Server.WithVariant` delegates to `addVariant` with an in-memory
backend. -/
def Server.WithVariant (s : Server) (v : ServerVariant) (b : Backend) (priority : Int) :
    Option Server :=
  s.addVariant v b priority

/-- `Server.WithRanking`. -/
def Server.WithRanking (s : Server) (fn : RankingFunc) : Server :=
  { s with rankingFunc := some fn }

/-- `Server.Variants`: a copy of all registered descriptors in
registration order. -/
def Server.Variants (s : Server) : List ServerVariant :=
  s.variants.map (fun e => e.variant)

/-- `Server.RankedVariants`: the registered variants ranked by the
configured function, or `defaultRankingFunc` when none is set. -/
def Server.RankedVariants (s : Server) (hints : VariantHints) : List ServerVariant :=
  let all := s.Variants
  if all.length = 0 then all
  else
    match s.rankingFunc with
    | some rankFn => rankFn hints all
    | none => defaultRankingFunc hints all

/-! ## Capability union (`server.go`, `unionCapabilities`) -/

/-- `mcp.ToolCapabilities`. -/
structure ToolCapabilities where
  listChanged : Bool := false

/-- `mcp.ResourceCapabilities`. -/
structure ResourceCapabilities where
  listChanged : Bool := false
  subscribe : Bool := false

/-- `mcp.PromptCapabilities`. -/
structure PromptCapabilities where
  listChanged : Bool := false

/-- `mcp.ServerCapabilities`, generic in the payload type `γ` of the
marker capabilities (`Completions`, `Logging`) and of the experimental
extension values. -/
structure ServerCapabilities (γ : Type) where
  completions : Option γ := none
  experimental : Option (List (GoStr × γ)) := none
  logging : Option γ := none
  prompts : Option PromptCapabilities := none
  resources : Option ResourceCapabilities := none
  tools : Option ToolCapabilities := none

/-- The experimental-map merge loop: each key of the new map is inserted
unless already present (first variant to register a key wins). -/
def mergeExperimental (union : List (GoStr × γ)) : List (GoStr × γ) → List (GoStr × γ)
  | [] => union
  | (k, v) :: rest =>
    if (union.lookup k).isSome then mergeExperimental union rest
    else mergeExperimental (union ++ [(k, v)]) rest

/-- One iteration of `unionCapabilities`'s loop: merge `caps` into the
accumulated union.  Each branch renders one `if caps.X != nil` block of
the source (lazy initialisation plus OR of the boolean sub-fields;
first non-nil wins for the markers). -/
def mergeOneCapabilities (union caps : ServerCapabilities γ) : ServerCapabilities γ where
  tools :=
    match caps.tools with
    | none => union.tools
    | some t => some { listChanged := (union.tools.getD {}).listChanged || t.listChanged }
  resources :=
    match caps.resources with
    | none => union.resources
    | some r => some { subscribe := (union.resources.getD {}).subscribe || r.subscribe,
                       listChanged := (union.resources.getD {}).listChanged || r.listChanged }
  prompts :=
    match caps.prompts with
    | none => union.prompts
    | some p => some { listChanged := (union.prompts.getD {}).listChanged || p.listChanged }
  completions :=
    match union.completions, caps.completions with
    | none, some x => some x
    | u, _ => u
  logging :=
    match union.logging, caps.logging with
    | none, some x => some x
    | u, _ => u
  experimental :=
    match caps.experimental with
    | none => union.experimental
    | some ex => some (mergeExperimental (union.experimental.getD []) ex)

/-- The fold of `unionCapabilities` over the capability list (nil entries
are skipped). -/
def unionCapsFold (acc : ServerCapabilities γ) :
    List (Option (ServerCapabilities γ)) → ServerCapabilities γ
  | [] => acc
  | none :: rest => unionCapsFold acc rest
  | some caps :: rest => unionCapsFold (mergeOneCapabilities acc caps) rest

/-- `unionCapabilities`: merge multiple `ServerCapabilities` into the set
the front proxy advertises. -/
def unionCapabilities (allCaps : List (Option (ServerCapabilities γ))) :
    ServerCapabilities γ :=
  unionCapsFold {} allCaps

/-! ## Initialize enrichment (`server.go`) -/

/-- `mcp.ClientCapabilities` (only the experimental map is read). -/
structure ClientCapabilities where
  experimental : Option (List (GoStr × JValue)) := none

/-- `mcp.InitializeParams` (only the capabilities are read). -/
structure InitializeParams where
  capabilities : Option ClientCapabilities := none

/-- The `initialize` request: `none` params model a failed type
assertion or nil params. -/
structure InitRequest where
  params : Option InitializeParams := none

/-- `mcp.InitializeResult` (only the capabilities are touched). -/
structure InitializeResult where
  capabilities : Option (ServerCapabilities JValue) := none

/-- An `mcp.Result` as seen by `enrichInitResult`: either an
`*mcp.InitializeResult` or some other result, passed through. -/
inductive McpResult where
  | initResult (r : InitializeResult) : McpResult
  | other : McpResult

/-- `extractVariantHints`: read
`params.capabilities.experimental[extensionID].variantHints`, tolerating
every missing or ill-typed layer by returning zero hints. -/
def extractVariantHints (req : InitRequest) : VariantHints :=
  match req.params with
  | none => {}
  | some params =>
    match params.capabilities with
    | none => {}
    | some caps =>
      match caps.experimental with
      | none => {}
      | some expMap =>
        match expMap.lookup extensionID with
        | none => {}
        | some ext =>
          let extMap : List (GoStr × JValue) := match ext with | .obj fs => fs | _ => []
          match extMap.lookup (gs "variantHints") with
          | some (.obj vh) =>
            { Description :=
                match vh.lookup (gs "description") with
                | some (.str s) => s
                | _ => []
              Hints :=
                match vh.lookup (gs "hints") with
                | some (.obj h) => some h
                | _ => none }
          | _ => {}

/-- `map[k] = v` on a JSON object modelled as an association list:
replace the key in place or append it. -/
def setKey (l : List (GoStr × α)) (k : GoStr) (v : α) : List (GoStr × α) :=
  match l with
  | [] => [(k, v)]
  | (k2, v2) :: rest => if k2 == k then (k, v) :: rest else (k2, v2) :: setKey rest k v

/-- JSON wire form of a `DeprecationInfo` value (struct tags with
`omitempty` on `replacement` and `removalDate`). -/
def deprecationPayload (d : DeprecationInfo) : JValue :=
  .obj ([(gs "message", .str d.message)] ++
    (if d.replacement ≠ [] then [(gs "replacement", .str d.replacement)] else []) ++
    (if d.removalDate ≠ [] then [(gs "removalDate", .str d.removalDate)] else []))

/-- The `availableVariants` entry built for one ranked variant by
`enrichInitResult`: `id` and `description` always; `hints`, `status` and
`deprecationInfo` only when set on the descriptor. -/
def variantPayload (v : ServerVariant) : JValue :=
  .obj ([(gs "id", .str v.ID), (gs "description", .str v.Description)] ++
    (match v.Hints with
     | some h => [(gs "hints", .obj (h.map (fun p => (p.1, JValue.str p.2))))]
     | none => []) ++
    (if v.Status ≠ [] then [(gs "status", .str v.Status)] else []) ++
    (match v.deprecationInfo with
     | some d => [(gs "deprecationInfo", deprecationPayload d)]
     | none => []))

/-- `Server.enrichInitResult`: inject the ranked variant list and the
`moreVariantsAvailable` flag under the extension key of the initialize
response's experimental capabilities. -/
def Server.enrichInitResult (s : Server) (result : McpResult) (req : InitRequest) : McpResult :=
  match result with
  | .other => result
  | .initResult initResult =>
    let ranked := s.RankedVariants (extractVariantHints req)
    let availableVariants : List JValue := ranked.map variantPayload
    let caps := initResult.capabilities.getD {}
    let exp := caps.experimental.getD []
    let payload : JValue := .obj [
      (gs "availableVariants", .arr availableVariants),
      (gs "moreVariantsAvailable", .bool (decide (ranked.length < s.variants.length)))]
    let newCaps := { caps with experimental := some (setKey exp extensionID payload) }
    .initResult { initResult with capabilities := some newCaps }

/-! ## Dispatcher (`dispatch.go`) -/

/-- `dispatcher`: routing table `variantID → inner session` plus the
server configuration. -/
structure dispatcher where
  server : Server
  connections : List (GoStr × InnerConnection)

/-- `dispatcher.createInvalidVariantError`: the spec-compliant
invalid-variant-selection error, carrying the requested ID and the
visible IDs in rank order (ranked with empty hints). -/
def dispatcher.createInvalidVariantError (d : dispatcher) (requestedVariant : GoStr) : GoError :=
  let ranked := d.server.RankedVariants {}
  let availableIDs := ranked.map (fun v => v.ID)
  let errorData : JValue := .obj [(gs "requestedVariant", .str requestedVariant),
                                  (gs "availableVariants", .arr (availableIDs.map JValue.str))]
  .jsonrpc { code := codeInvalidParams, message := "Invalid server variant",
             data := some errorData }

/-- `dispatcher.getSession`: resolve the request's `_meta` variant, or
fall back to the first variant of a fresh empty-hints ranking (the
source's documented default-selection bug), then look up the inner
session. -/
def dispatcher.getSession (d : dispatcher) (req : RoutedRequest) :
    Except GoError (GoStr × InnerSession) :=
  let fromMeta := variantIDFromMeta req
  let resolved : Except GoError GoStr :=
    if fromMeta = [] then
      match d.server.RankedVariants {} with
      | [] => .error (.other "no variants available")
      | v :: _ => .ok v.ID
    else .ok fromMeta
  match resolved with
  | .error e => .error e
  | .ok variantID =>
    match d.connections.lookup variantID with
    | none => .error (d.createInvalidVariantError variantID)
    | some conn => .ok (variantID, conn.clientSession)

/-- `enrichError`: add `activeVariant` to a `jsonrpc.Error`'s data for
resolution-class failures (`-32602`, `-32601`) by building a fresh error
value; everything else passes through unchanged. -/
def enrichError (err : GoError) (variantID : GoStr) : GoError :=
  match err with
  | .other _ => err
  | .jsonrpc jErr =>
    if jErr.code = codeInvalidParams ∨ jErr.code = codeMethodNotFound then
      let data : List (GoStr × JValue) :=
        match jErr.data with
        | some (.obj fields) => fields
        | _ => []
      .jsonrpc { code := jErr.code, message := jErr.message,
                 data := some (.obj (setKey data (gs "activeVariant") (.str variantID))) }
    else err

/-- Result of a dispatched method: a list result with a possibly wrapped
cursor, or an opaque call result. -/
inductive DispatchResult where
  | list (r : ListResult) : DispatchResult
  | value (v : JValue) : DispatchResult

/-- Wrap the `nextCursor` of a list result with the active variant ID
(`if result != nil && result.NextCursor != ""`). -/
def wrapListResult (variantID : GoStr) (result : Option ListResult) : Option DispatchResult :=
  match result with
  | some r =>
    if r.nextCursor ≠ [] then some (.list { r with nextCursor := wrapCursor r.nextCursor variantID })
    else some (.list r)
  | none => none

/-- The shared body of the four `handleList` branches: unwrap an incoming
cursor against the active variant, forward, enrich errors, wrap the
outgoing cursor. -/
def listFlow (variantID : GoStr) (p : Option ListParams)
    (call : Option ListParams → Except GoError (Option ListResult)) :
    Except GoError (Option DispatchResult) :=
  match p with
  | some p0 =>
    if p0.cursor ≠ [] then
      match unwrapCursor p0.cursor variantID with
      | .error e => .error (.jsonrpc e)
      | .ok innerCursor =>
        match call (some { p0 with cursor := innerCursor }) with
        | .error err => .error (enrichError err variantID)
        | .ok result => .ok (wrapListResult variantID result)
    else
      match call (some p0) with
      | .error err => .error (enrichError err variantID)
      | .ok result => .ok (wrapListResult variantID result)
  | none =>
    match call none with
    | .error err => .error (enrichError err variantID)
    | .ok result => .ok (wrapListResult variantID result)

/-- The type assertion `params.(*mcp.List…Params)` of a list handler (the
four per-method list parameter types share one shape here). -/
def asListParams : RoutedParams → Option ListParams
  | .listP p => p
  | _ => none

/-- `dispatcher.handleList`. -/
def dispatcher.handleList (d : dispatcher) (method : String) (req : RoutedRequest) :
    Except GoError (Option DispatchResult) :=
  match d.getSession req with
  | .error e => .error e
  | .ok (variantID, session) =>
    if method = "tools/list" then
      listFlow variantID (asListParams req.params) session.listTools
    else if method = "resources/list" then
      listFlow variantID (asListParams req.params) session.listResources
    else if method = "prompts/list" then
      listFlow variantID (asListParams req.params) session.listPrompts
    else if method = "resources/templates/list" then
      listFlow variantID (asListParams req.params) session.listResourceTemplates
    else .error (.other ("unsupported list method: " ++ method))

/-- `dispatcher.handleCall` (`tools/call`, `resources/read`,
`prompts/get`): missing params return invalid-params directly; inner
errors are enriched. -/
def dispatcher.handleCall (d : dispatcher) (method : String) (req : RoutedRequest) :
    Except GoError (Option DispatchResult) :=
  match d.getSession req with
  | .error e => .error e
  | .ok (variantID, session) =>
    if method = "tools/call" then
      match req.params with
      | .callToolP (some raw) =>
        match session.callTool { meta := raw.meta, name := raw.name,
                                 arguments := raw.arguments } with
        | .error err => .error (enrichError err variantID)
        | .ok result => .ok (some (.value result))
      | _ => .error (.jsonrpc { code := codeInvalidParams,
                                message := "missing or invalid tools/call params" })
    else if method = "resources/read" then
      match req.params with
      | .readResourceP (some p) =>
        match session.readResource p with
        | .error err => .error (enrichError err variantID)
        | .ok result => .ok (some (.value result))
      | _ => .error (.jsonrpc { code := codeInvalidParams,
                                message := "missing or invalid resources/read params" })
    else if method = "prompts/get" then
      match req.params with
      | .getPromptP (some p) =>
        match session.getPrompt p with
        | .error err => .error (enrichError err variantID)
        | .ok result => .ok (some (.value result))
      | _ => .error (.jsonrpc { code := codeInvalidParams,
                                message := "missing or invalid prompts/get params" })
    else .error (.other ("unsupported call method: " ++ method))

/-- `dispatcher.handleSubscribe`. -/
def dispatcher.handleSubscribe (d : dispatcher) (req : RoutedRequest) :
    Except GoError (Option DispatchResult) :=
  match d.getSession req with
  | .error e => .error e
  | .ok (variantID, session) =>
    match req.params with
    | .subscribeP (some p) =>
      match session.subscribe p with
      | .error err => .error (enrichError err variantID)
      | .ok _ => .ok none
    | _ => .error (.jsonrpc { code := codeInvalidParams,
                              message := "missing or invalid resources/subscribe params" })

/-- `dispatcher.handleUnsubscribe`. -/
def dispatcher.handleUnsubscribe (d : dispatcher) (req : RoutedRequest) :
    Except GoError (Option DispatchResult) :=
  match d.getSession req with
  | .error e => .error e
  | .ok (variantID, session) =>
    match req.params with
    | .unsubscribeP (some p) =>
      match session.unsubscribe p with
      | .error err => .error (enrichError err variantID)
      | .ok _ => .ok none
    | _ => .error (.jsonrpc { code := codeInvalidParams,
                              message := "missing or invalid resources/unsubscribe params" })

/-- `dispatcher.handleCompletion`. -/
def dispatcher.handleCompletion (d : dispatcher) (req : RoutedRequest) :
    Except GoError (Option DispatchResult) :=
  match d.getSession req with
  | .error e => .error e
  | .ok (variantID, session) =>
    match req.params with
    | .completeP (some p) =>
      match session.complete p with
      | .error err => .error (enrichError err variantID)
      | .ok result => .ok (some (.value result))
    | _ => .error (.jsonrpc { code := codeInvalidParams,
                              message := "missing or invalid completion/complete params" })

/-- `dispatcher.handle`: the method switch; unknown methods go to
`next`. -/
def dispatcher.handle (d : dispatcher) (method : String) (req : RoutedRequest)
    (next : Except GoError (Option DispatchResult)) : Except GoError (Option DispatchResult) :=
  if method = "tools/list" ∨ method = "resources/list" ∨ method = "prompts/list" ∨
      method = "resources/templates/list" then
    d.handleList method req
  else if method = "tools/call" ∨ method = "resources/read" ∨ method = "prompts/get" then
    d.handleCall method req
  else if method = "resources/subscribe" then d.handleSubscribe req
  else if method = "resources/unsubscribe" then d.handleUnsubscribe req
  else if method = "completion/complete" then d.handleCompletion req
  else next

/-! ## Session lifecycle (`session.go`) -/

/-- `sessionState`: all per-session state for one front client. -/
structure sessionState where
  dispatcher : dispatcher

/-- The connect loop of `createSessionState`, also returning the IDs of
the connections closed on failure.  The source closes the connections by
iterating the (unordered) map; the log lists them in creation order. -/
def createSessionStateGo (s : Server) :
    List variantEntry → List (GoStr × InnerConnection) →
    (Except GoError sessionState × List GoStr)
  | [], conns => (.ok { dispatcher := { server := s, connections := conns } }, [])
  | e :: rest, conns =>
    match e.backend.connectResult with
    | .error err => (.error err, conns.map (fun p => p.1))
    | .ok conn => createSessionStateGo s rest (conns ++ [(e.variant.ID, conn)])

/-- `Server.createSessionState`: one inner connection per registered
variant; on any connect failure all already-created connections are
closed (their IDs are the second component) and the error returned. -/
def Server.createSessionState (s : Server) :
    Except GoError sessionState × List GoStr :=
  createSessionStateGo s s.variants []

/-- The `initialize` path of `sessionMiddleware` in stateful mode: run
the next handler, create per-session state, store it under the session
key, and enrich the result; on any failure the request fails and the
session map is left unchanged. -/
def sessionMiddlewareInit (s : Server) (sessions : List (Nat × sessionState)) (ss : Nat)
    (nextResult : Except GoError McpResult) (req : InitRequest) :
    Except GoError McpResult × List (Nat × sessionState) :=
  match nextResult with
  | .error e => (.error e, sessions)
  | .ok result =>
    match s.createSessionState with
    | (.error e, _) => (.error e, sessions)
    | (.ok state, _) => (.ok (s.enrichInitResult result req), sessions ++ [(ss, state)])

/-! ## Properties of the stable sort and the default ranking -/

theorem insertBy_perm (le : α → α → Bool) (x : α) (l : List α) :
    (insertBy le x l).Perm (x :: l) := by
  induction l with
  | nil => simp [insertBy]
  | cons y ys ih =>
      unfold insertBy
      split_ifs
      · exact List.Perm.refl _
      · exact (List.Perm.cons y ih).trans (List.Perm.swap x y ys)

theorem sortStableBy_perm (le : α → α → Bool) (l : List α) :
    (sortStableBy le l).Perm l := by
  induction l with
  | nil => exact List.Perm.refl _
  | cons x xs ih =>
      unfold sortStableBy
      exact (insertBy_perm le x _).trans (List.Perm.cons x ih)

theorem insertBy_pairwise (le : α → α → Bool)
    (htot : ∀ a b, le a b = false → le b a = true)
    (htrans : ∀ a b c, le a b = true → le b c = true → le a c = true)
    (x : α) (l : List α) (h : l.Pairwise (fun a b => le a b = true)) :
    (insertBy le x l).Pairwise (fun a b => le a b = true) := by
  induction l with
  | nil => simp [insertBy]
  | cons y ys ih =>
      rcases List.pairwise_cons.mp h with ⟨hy, hys⟩
      unfold insertBy
      split_ifs with hxy
      · refine List.pairwise_cons.mpr ⟨?_, h⟩
        intro z hz
        rcases List.mem_cons.mp hz with rfl | hz
        · exact hxy
        · exact htrans x y z hxy (hy z hz)
      · refine List.pairwise_cons.mpr ⟨?_, ih hys⟩
        intro z hz
        have hperm := insertBy_perm le x ys
        have hz2 := hperm.mem_iff.mp hz
        rcases List.mem_cons.mp hz2 with rfl | hz2
        · exact htot z y (by simpa using hxy)
        · exact hy z hz2

theorem sortStableBy_pairwise (le : α → α → Bool)
    (htot : ∀ a b, le a b = false → le b a = true)
    (htrans : ∀ a b c, le a b = true → le b c = true → le a c = true)
    (l : List α) : (sortStableBy le l).Pairwise (fun a b => le a b = true) := by
  induction l with
  | nil => simp [sortStableBy]
  | cons x xs ih =>
      unfold sortStableBy
      exact insertBy_pairwise le htot htrans x _ ih

theorem filter_insertBy_of_neg (le : α → α → Bool) (p : α → Bool) (x : α) (l : List α)
    (hx : p x = false) : (insertBy le x l).filter p = l.filter p := by
  induction l with
  | nil => simp [insertBy, hx]
  | cons y ys ih =>
      unfold insertBy
      split_ifs
      · simp [List.filter_cons, hx]
      · simp only [List.filter_cons, ih]

theorem filter_insertBy_of_pos (le : α → α → Bool) (p : α → Bool) (x : α) (l : List α)
    (hx : p x = true) (hskip : ∀ y, le x y = false → p y = false) :
    (insertBy le x l).filter p = x :: l.filter p := by
  induction l with
  | nil => simp [insertBy, hx]
  | cons y ys ih =>
      unfold insertBy
      split_ifs with hxy
      · simp [List.filter_cons, hx]
      · have hy : p y = false := hskip y (by simpa using hxy)
        simp only [List.filter_cons, hy, ih]
        simp [hy]

theorem filter_sortStableBy (le : α → α → Bool) (p : α → Bool)
    (hclass : ∀ x y, p x = true → le x y = false → p y = false) (l : List α) :
    (sortStableBy le l).filter p = l.filter p := by
  induction l with
  | nil => rfl
  | cons x xs ih =>
      unfold sortStableBy
      cases hp : p x with
      | true =>
          rw [filter_insertBy_of_pos le p x _ hp (fun y hy => hclass x y hp hy), ih]
          simp [List.filter_cons, hp]
      | false =>
          rw [filter_insertBy_of_neg le p x _ hp, ih]
          simp [List.filter_cons, hp]

/-- The mathematical (non-wrapping) counterpart of `cmpVariant`, used to
reason about the ranking when no priority difference overflows. -/
def cmpVariantU (a b : ServerVariant) : Int :=
  if a.Priority ≠ b.Priority then a.Priority - b.Priority
  else statusWeight a.Status - statusWeight b.Status

theorem wrapInt64_eq_self (n : Int)
    (h1 : -9223372036854775808 ≤ n) (h2 : n < 9223372036854775808) :
    wrapInt64 n = n := by
  unfold wrapInt64
  omega

theorem cmpVariant_eq_U (a b : ServerVariant)
    (ha : -(2 ^ 62) ≤ a.Priority ∧ a.Priority < 2 ^ 62)
    (hb : -(2 ^ 62) ≤ b.Priority ∧ b.Priority < 2 ^ 62) :
    cmpVariant a b = cmpVariantU a b := by
  have hn : ((2 : Int) ^ 62) = 4611686018427387904 := by norm_num
  rw [hn] at ha hb
  unfold cmpVariant cmpVariantU
  split_ifs with h
  · exact wrapInt64_eq_self _ (by omega) (by omega)
  · rfl

theorem insertBy_congr (le le' : α → α → Bool) (x : α) (l : List α)
    (h : ∀ b ∈ l, le x b = le' x b) :
    insertBy le x l = insertBy le' x l := by
  induction l with
  | nil => rfl
  | cons y ys ih =>
      rw [insertBy, insertBy, h y (List.mem_cons_self y ys)]
      cases hle : le' x y
      · show y :: insertBy le x ys = y :: insertBy le' x ys
        rw [ih (fun b hb => h b (List.mem_cons_of_mem y hb))]
      · rfl

theorem sortStableBy_congr (le le' : α → α → Bool) (l : List α)
    (h : ∀ a ∈ l, ∀ b ∈ l, le a b = le' a b) :
    sortStableBy le l = sortStableBy le' l := by
  induction l with
  | nil => rfl
  | cons x rest ih =>
      rw [sortStableBy, sortStableBy,
        ih (fun a ha b hb => h a (List.mem_cons_of_mem x ha) b (List.mem_cons_of_mem x hb))]
      refine insertBy_congr _ _ x _ ?_
      intro b hb
      have hbrest : b ∈ rest := (sortStableBy_perm le' rest).mem_iff.mp hb
      exact h x (List.mem_cons_self x rest) b (List.mem_cons_of_mem x hbrest)

theorem cmpVariantU_le_iff (a b : ServerVariant) :
    cmpVariantU a b ≤ 0 ↔
      (a.Priority < b.Priority ∨
        (a.Priority = b.Priority ∧ statusWeight a.Status ≤ statusWeight b.Status)) := by
  unfold cmpVariantU
  split_ifs with h
  · omega
  · simp only [ne_eq, not_not] at h
    omega

theorem leVariant_total (a b : ServerVariant) :
    (decide (cmpVariantU a b ≤ 0)) = false → (decide (cmpVariantU b a ≤ 0)) = true := by
  intro h
  simp only [decide_eq_false_iff_not, not_le] at h
  simp only [decide_eq_true_eq]
  rw [cmpVariantU_le_iff]
  rw [show (0 : Int) < cmpVariantU a b ↔
      b.Priority < a.Priority ∨ (a.Priority = b.Priority ∧
        statusWeight b.Status < statusWeight a.Status) from by
    unfold cmpVariantU
    split_ifs with hp
    · omega
    · simp only [ne_eq, not_not] at hp
      omega] at h
  omega

theorem leVariant_trans (a b c : ServerVariant) :
    (decide (cmpVariantU a b ≤ 0)) = true → (decide (cmpVariantU b c ≤ 0)) = true →
    (decide (cmpVariantU a c ≤ 0)) = true := by
  simp only [decide_eq_true_eq, cmpVariantU_le_iff]
  omega

/-- C4: on every registry whose priorities avoid 64-bit overflow of the
comparator's machine-`int` subtraction (all priorities in
`[-2^62, 2^62)`), the default ranking function returns the descriptors
sorted stably by the pair `(priority, statusWeight)` — it is a
permutation, sorted in the lexicographic order of that pair, and
preserves the input order inside every equal-key class — with weights
`stable = 0`, `experimental = 1`, `deprecated = 2` and unknown non-empty
statuses `3`; it is deterministic and independent of the hints, and when
all priorities are distinct the output is in strictly ascending priority
order.  The overflow proviso is necessary: see
`C4_wraparound_counterexample`. -/
theorem C4_defaultRankingFunc_sorts (hints hints₂ : VariantHints) (vs : List ServerVariant)
    (hrange : ∀ v ∈ vs, -(2 ^ 62) ≤ v.Priority ∧ v.Priority < 2 ^ 62) :
    (defaultRankingFunc hints vs).Perm vs ∧
    (defaultRankingFunc hints vs).Pairwise (fun a b =>
      a.Priority < b.Priority ∨
        (a.Priority = b.Priority ∧ statusWeight a.Status ≤ statusWeight b.Status)) ∧
    (∀ p w, (defaultRankingFunc hints vs).filter
        (fun v => v.Priority == p && statusWeight v.Status == w) =
      vs.filter (fun v => v.Priority == p && statusWeight v.Status == w)) ∧
    (statusWeight Stable = 0 ∧ statusWeight Experimental = 1 ∧
      statusWeight Deprecated = 2 ∧
      ∀ st, st ≠ Stable → st ≠ Experimental → st ≠ Deprecated → st ≠ [] →
        statusWeight st = 3) ∧
    defaultRankingFunc hints vs = defaultRankingFunc hints₂ vs ∧
    (vs.Pairwise (fun a b => a.Priority ≠ b.Priority) →
      (defaultRankingFunc hints vs).Pairwise (fun a b => a.Priority < b.Priority)) := by
  have hdef : ∀ h : VariantHints, defaultRankingFunc h vs =
      sortStableBy (fun a b => decide (cmpVariantU a b ≤ 0)) vs := by
    intro h
    show sortStableBy (fun a b => decide (cmpVariant a b ≤ 0)) vs = _
    refine sortStableBy_congr _ _ vs ?_
    intro a ha b hb
    rw [cmpVariant_eq_U a b (hrange a ha) (hrange b hb)]
  refine ⟨?_, ?_, ?_, ?_, ?_, ?_⟩
  · rw [hdef]
    exact sortStableBy_perm _ vs
  · rw [hdef]
    have hp := sortStableBy_pairwise _ leVariant_total leVariant_trans vs
    refine hp.imp ?_
    intro a b hab
    simp only [decide_eq_true_eq] at hab
    exact (cmpVariantU_le_iff a b).mp hab
  · intro p w
    rw [hdef]
    refine filter_sortStableBy _ _ ?_ vs
    intro x y hx hxy
    simp only [Bool.and_eq_true, beq_iff_eq] at hx
    simp only [decide_eq_false_iff_not, not_le] at hxy
    have : y.Priority < x.Priority ∨
        (x.Priority = y.Priority ∧ statusWeight y.Status < statusWeight x.Status) := by
      unfold cmpVariantU at hxy
      split_ifs at hxy with h
      · omega
      · simp only [ne_eq, not_not] at h
        omega
    simp only [Bool.and_eq_false_iff, beq_eq_false_iff_ne, ne_eq]
    omega
  · refine ⟨rfl, rfl, rfl, ?_⟩
    intro st h1 h2 h3 h4
    unfold statusWeight
    rw [if_neg (by tauto), if_neg h2, if_neg h3]
  · rw [hdef, hdef]
  · intro hdist
    rw [hdef]
    have hp := sortStableBy_pairwise _ leVariant_total leVariant_trans vs
    have hsymm : Symmetric (fun a b : ServerVariant => a.Priority ≠ b.Priority) :=
      fun _ _ h => h.symm
    have hd2 : (sortStableBy (fun a b => decide (cmpVariantU a b ≤ 0)) vs).Pairwise
        (fun a b => a.Priority ≠ b.Priority) :=
      ((sortStableBy_perm _ vs).pairwise_iff (fun hab => hsymm hab)).mpr hdist
    have hcomb := hp.and hd2
    refine hcomb.imp ?_
    intro a b hab
    rcases hab with ⟨h1, h2⟩
    simp only [decide_eq_true_eq] at h1
    have := (cmpVariantU_le_iff a b).mp h1
    omega

/-- Fixture: two variants with distinct priorities. -/
def vsW : List ServerVariant := [
  { ID := gs "b", Status := Experimental, priority := 1 },
  { ID := gs "a", Status := Stable, priority := 0 }]

/-- Witness for `C4_defaultRankingFunc_sorts` at a concrete registry and
a concrete unknown status. -/
theorem C4_defaultRankingFunc_sorts_witness :
    (∀ v ∈ vsW, -(2 ^ 62) ≤ v.Priority ∧ v.Priority < 2 ^ 62) ∧
    (vsW.Pairwise (fun a b => a.Priority ≠ b.Priority) ∧
      (defaultRankingFunc {} vsW).Pairwise (fun a b => a.Priority < b.Priority)) ∧
    (gs "weird" ≠ Stable ∧ gs "weird" ≠ Experimental ∧ gs "weird" ≠ Deprecated ∧
      gs "weird" ≠ [] ∧ statusWeight (gs "weird") = 3) :=
  ⟨by decide,
   ⟨by decide, (C4_defaultRankingFunc_sorts {} {} vsW (by decide)).2.2.2.2.2 (by decide)⟩,
   ⟨by decide, by decide, by decide, by decide,
    (C4_defaultRankingFunc_sorts {} {} vsW (by decide)).2.2.2.1.2.2.2 (gs "weird")
      (by decide) (by decide) (by decide) (by decide)⟩⟩

/-- A priority of `2^62`, representable in a Go `int`. -/
def vHiC4 : ServerVariant := { ID := gs "hi", priority := 4611686018427387904 }

/-- A priority of `-(2^62) - 1`, representable in a Go `int`; the
difference `vHiC4.priority - vLoC4.priority = 2^63 + 1` overflows the
comparator's machine-`int` subtraction. -/
def vLoC4 : ServerVariant := { ID := gs "lo", priority := -4611686018427387905 }

/-- Counterexample to the unrestricted C4 claim: the two priorities are
distinct (and each fits a Go `int`), yet the wrapped difference flips
sign, so the default ranking leaves the higher priority first — the
output is not in ascending priority order. -/
theorem C4_wraparound_counterexample :
    vLoC4.Priority < vHiC4.Priority ∧
    vHiC4.Priority ≠ vLoC4.Priority ∧
    defaultRankingFunc {} [vHiC4, vLoC4] = [vHiC4, vLoC4] ∧
    ¬ (defaultRankingFunc {} [vHiC4, vLoC4]).Pairwise
        (fun a b => a.Priority < b.Priority) := by
  refine ⟨by decide, by decide, by decide, ?_⟩
  intro hpw
  rw [show defaultRankingFunc {} [vHiC4, vLoC4] = [vHiC4, vLoC4] from by decide] at hpw
  rcases List.pairwise_cons.mp hpw with ⟨hhead, _⟩
  exact absurd (hhead vLoC4 (List.mem_singleton_self vLoC4)) (by decide)

/-- Field lookup on a JSON object value (`none` on non-objects). -/
def jObjLookup (j : JValue) (k : GoStr) : Option JValue :=
  match j with
  | .obj fields => fields.lookup k
  | _ => none

/-- Normalisation replacing an empty status by `stable`; used to state
that the empty status is ranked exactly like `stable`. -/
def statusNormalize (v : ServerVariant) : ServerVariant :=
  if v.Status = [] then { v with Status := Stable } else v

theorem statusWeight_statusNormalize (v : ServerVariant) :
    statusWeight (statusNormalize v).Status = statusWeight v.Status := by
  unfold statusNormalize
  split_ifs with h
  · simp only [h]
    rfl
  · rfl

theorem cmpVariant_statusNormalize (a b : ServerVariant) :
    cmpVariant (statusNormalize a) (statusNormalize b) = cmpVariant a b := by
  unfold cmpVariant
  rw [statusWeight_statusNormalize, statusWeight_statusNormalize]
  have hpa : (statusNormalize a).Priority = a.Priority := by
    unfold statusNormalize
    split_ifs <;> rfl
  have hpb : (statusNormalize b).Priority = b.Priority := by
    unfold statusNormalize
    split_ifs <;> rfl
  rw [hpa, hpb]

theorem insertBy_map_comm (le : α → α → Bool) (f : α → α)
    (hle : ∀ a b, le (f a) (f b) = le a b) (x : α) (l : List α) :
    insertBy le (f x) (l.map f) = (insertBy le x l).map f := by
  induction l with
  | nil => rfl
  | cons y ys ih =>
      simp only [List.map_cons]
      unfold insertBy
      rw [hle]
      split_ifs
      · simp
      · simp only [List.map_cons, ih]

theorem sortStableBy_map_comm (le : α → α → Bool) (f : α → α)
    (hle : ∀ a b, le (f a) (f b) = le a b) (l : List α) :
    sortStableBy le (l.map f) = (sortStableBy le l).map f := by
  induction l with
  | nil => rfl
  | cons x xs ih =>
      simp only [List.map_cons]
      unfold sortStableBy
      rw [ih, insertBy_map_comm le f hle]

/-- C10: a variant whose status is the empty string is ranked by the
default ranking exactly like one with status `stable` (the weights agree
and are 0, and normalising empty statuses to `stable` commutes with the
default ranking), and its `availableVariants` entry omits the `status`
field exactly when the status is empty. -/
theorem C10_empty_status_stable (hints : VariantHints) (vs : List ServerVariant)
    (v : ServerVariant) :
    statusWeight [] = 0 ∧
    statusWeight [] = statusWeight Stable ∧
    defaultRankingFunc hints (vs.map statusNormalize) =
      (defaultRankingFunc hints vs).map statusNormalize ∧
    (jObjLookup (variantPayload v) (gs "status") = none ↔ v.Status = []) := by
  refine ⟨rfl, rfl, ?_, ?_⟩
  · show sortStableBy _ (vs.map statusNormalize) = (sortStableBy _ vs).map statusNormalize
    refine sortStableBy_map_comm _ statusNormalize ?_ vs
    intro a b
    rw [cmpVariant_statusNormalize]
  · have key : jObjLookup (variantPayload v) (gs "status") =
        if v.Status = [] then none else some (.str v.Status) := by
      unfold variantPayload jObjLookup
      by_cases hst : v.Status = []
      · rw [if_neg (by simp [hst]), if_pos hst]
        rcases v.Hints with _ | h0 <;> rcases v.deprecationInfo with _ | d0 <;> rfl
      · rw [if_pos hst, if_neg hst]
        rcases v.Hints with _ | h0 <;> rcases v.deprecationInfo with _ | d0 <;> rfl
    rw [key]
    by_cases hst : v.Status = [] <;> simp [hst]

/-- C2: the cursor codec round-trips — the empty cursor wraps and
unwraps to itself without error; a non-empty cursor wrapped for variant
`v` unwraps to itself under `v`; under any other variant `w` it fails
with a `-32602` error whose data carries `cursorVariant = v` and
`requestedVariant = w`; and any non-empty input rejected by the base64
decoder or by JSON unmarshalling fails with
`-32602 "Invalid cursor format"`. -/
theorem C2_cursor_codec (v w c s : GoStr) (bs : List Nat) :
    wrapCursor [] v = [] ∧
    unwrapCursor [] v = .ok [] ∧
    (c ≠ [] → unwrapCursor (wrapCursor c v) v = .ok c) ∧
    (c ≠ [] → w ≠ v → unwrapCursor (wrapCursor c v) w =
      .error { code := -32602, message := "Cursor invalid for requested variant",
               data := some (.obj [(gs "cursorVariant", .str v),
                                   (gs "requestedVariant", .str w)]) }) ∧
    (s ≠ [] → base64Decode s = none →
      unwrapCursor s v = .error { code := -32602, message := "Invalid cursor format" }) ∧
    (s ≠ [] → base64Decode s = some bs → unmarshalVariantCursor bs = none →
      unwrapCursor s v = .error { code := -32602, message := "Invalid cursor format" }) := by
  refine ⟨rfl, rfl, fun hc => unwrapCursor_wrapCursor c v hc,
    fun hc hw => unwrapCursor_wrapCursor_mismatch c v w hc hw, ?_, ?_⟩
  · intro hs hdec
    unfold unwrapCursor
    rw [if_neg hs, hdec]
    rfl
  · intro hs hdec hum
    unfold unwrapCursor
    rw [if_neg hs, hdec]
    dsimp only
    rw [hum]
    rfl

/-- Witness for `C2_cursor_codec`: the round trip and the mismatch at
concrete cursors, a non-base64 input, and a base64 input that is valid
JSON but not an object. -/
theorem C2_cursor_codec_witness :
    (gs "x" ≠ [] ∧
      unwrapCursor (wrapCursor (gs "x") (gs "a")) (gs "a") = .ok (gs "x")) ∧
    (gs "b" ≠ gs "a" ∧
      unwrapCursor (wrapCursor (gs "x") (gs "a")) (gs "b") =
        .error { code := -32602, message := "Cursor invalid for requested variant",
                 data := some (.obj [(gs "cursorVariant", .str (gs "a")),
                                     (gs "requestedVariant", .str (gs "b"))]) }) ∧
    (gs "!" ≠ [] ∧ base64Decode (gs "!") = none ∧
      unwrapCursor (gs "!") (gs "a") =
        .error { code := -32602, message := "Invalid cursor format" }) ∧
    (base64Decode (gs "W10=") = some [91, 93] ∧ unmarshalVariantCursor [91, 93] = none ∧
      unwrapCursor (gs "W10=") (gs "a") =
        .error { code := -32602, message := "Invalid cursor format" }) :=
  ⟨⟨by decide, ((C2_cursor_codec (gs "a") (gs "b") (gs "x") (gs "!") []).2.2.1 (by decide))⟩,
   ⟨by decide, ((C2_cursor_codec (gs "a") (gs "b") (gs "x") (gs "!") []).2.2.2.1
      (by decide) (by decide))⟩,
   ⟨by decide, by decide,
    ((C2_cursor_codec (gs "a") (gs "b") (gs "x") (gs "!") []).2.2.2.2.1
      (by decide) (by decide))⟩,
   ⟨by decide, by decide,
    ((C2_cursor_codec (gs "a") (gs "b") (gs "x") (gs "W10=") [91, 93]).2.2.2.2.2
      (by decide) (by decide) (by decide))⟩⟩

/-! ## Properties of the capability union -/

theorem lookup_append (l1 l2 : List (GoStr × γ)) (k : GoStr) :
    (l1 ++ l2).lookup k = (l1.lookup k <|> l2.lookup k) := by
  induction l1 with
  | nil => simp [List.lookup]
  | cons p rest ih =>
      rcases p with ⟨k2, v⟩
      simp only [List.cons_append, List.lookup]
      cases hbeq : k == k2
      · simp [hbeq, ih]
      · simp [hbeq]

theorem mergeExperimental_lookup (u ex : List (GoStr × γ)) (k : GoStr) :
    (mergeExperimental u ex).lookup k = (u.lookup k <|> ex.lookup k) := by
  induction ex generalizing u with
  | nil => simp [mergeExperimental]
  | cons p rest ih =>
      rcases p with ⟨k2, v⟩
      unfold mergeExperimental
      split_ifs with hin
      · rw [ih]
        simp only [List.lookup]
        cases hbeq : k == k2
        · simp [hbeq]
        · have hk : k = k2 := by simpa using hbeq
          subst hk
          rcases Option.isSome_iff_exists.mp hin with ⟨x, hx⟩
          rw [hx]
          simp [hbeq]
      · rw [ih, lookup_append]
        simp only [List.lookup]
        cases hbeq : k == k2
        · simp [List.lookup, hbeq]
        · have hk : k = k2 := by simpa using hbeq
          subst hk
          have hu : u.lookup k = none := by
            cases hu : u.lookup k
            · rfl
            · rw [hu] at hin
              simp at hin
          rw [hu]
          simp [List.lookup, hbeq]

theorem mergeOne_tools (u c : ServerCapabilities γ) :
    (mergeOneCapabilities u c).tools =
      match c.tools with
      | none => u.tools
      | some t => some { listChanged := (u.tools.getD {}).listChanged || t.listChanged } := rfl

theorem mergeOne_resources (u c : ServerCapabilities γ) :
    (mergeOneCapabilities u c).resources =
      match c.resources with
      | none => u.resources
      | some r => some { subscribe := (u.resources.getD {}).subscribe || r.subscribe,
                         listChanged := (u.resources.getD {}).listChanged || r.listChanged } := rfl

theorem mergeOne_prompts (u c : ServerCapabilities γ) :
    (mergeOneCapabilities u c).prompts =
      match c.prompts with
      | none => u.prompts
      | some p => some { listChanged := (u.prompts.getD {}).listChanged || p.listChanged } := rfl

theorem mergeOne_completions (u c : ServerCapabilities γ) :
    (mergeOneCapabilities u c).completions =
      match u.completions, c.completions with
      | none, some x => some x
      | u0, _ => u0 := rfl

theorem mergeOne_logging (u c : ServerCapabilities γ) :
    (mergeOneCapabilities u c).logging =
      match u.logging, c.logging with
      | none, some x => some x
      | u0, _ => u0 := rfl

theorem mergeOne_experimental (u c : ServerCapabilities γ) :
    (mergeOneCapabilities u c).experimental =
      match c.experimental with
      | none => u.experimental
      | some ex => some (mergeExperimental (u.experimental.getD []) ex) := rfl

theorem unionCapsFold_tools_isSome (l : List (Option (ServerCapabilities γ)))
    (acc : ServerCapabilities γ) :
    (unionCapsFold acc l).tools.isSome =
      (acc.tools.isSome || l.any (fun oc => (oc.map (fun sc => sc.tools.isSome)).getD false)) := by
  induction l generalizing acc with
  | nil => simp [unionCapsFold]
  | cons oc rest ih =>
      cases oc with
      | none =>
          rw [unionCapsFold, ih]
          simp
      | some c =>
          rw [unionCapsFold, ih]
          have hm : (mergeOneCapabilities acc c).tools.isSome =
              (acc.tools.isSome || c.tools.isSome) := by
            rw [mergeOne_tools]
            cases c.tools <;> simp
          rw [hm]
          simp [Bool.or_assoc]

theorem unionCapsFold_resources_isSome (l : List (Option (ServerCapabilities γ)))
    (acc : ServerCapabilities γ) :
    (unionCapsFold acc l).resources.isSome =
      (acc.resources.isSome ||
        l.any (fun oc => (oc.map (fun sc => sc.resources.isSome)).getD false)) := by
  induction l generalizing acc with
  | nil => simp [unionCapsFold]
  | cons oc rest ih =>
      cases oc with
      | none =>
          rw [unionCapsFold, ih]
          simp
      | some c =>
          rw [unionCapsFold, ih]
          have hm : (mergeOneCapabilities acc c).resources.isSome =
              (acc.resources.isSome || c.resources.isSome) := by
            rw [mergeOne_resources]
            cases c.resources <;> simp
          rw [hm]
          simp [Bool.or_assoc]

theorem unionCapsFold_prompts_isSome (l : List (Option (ServerCapabilities γ)))
    (acc : ServerCapabilities γ) :
    (unionCapsFold acc l).prompts.isSome =
      (acc.prompts.isSome ||
        l.any (fun oc => (oc.map (fun sc => sc.prompts.isSome)).getD false)) := by
  induction l generalizing acc with
  | nil => simp [unionCapsFold]
  | cons oc rest ih =>
      cases oc with
      | none =>
          rw [unionCapsFold, ih]
          simp
      | some c =>
          rw [unionCapsFold, ih]
          have hm : (mergeOneCapabilities acc c).prompts.isSome =
              (acc.prompts.isSome || c.prompts.isSome) := by
            rw [mergeOne_prompts]
            cases c.prompts <;> simp
          rw [hm]
          simp [Bool.or_assoc]

/-- The `listChanged` flag of the tools capability, false when absent. -/
def toolsListChangedFlag (c : ServerCapabilities γ) : Bool :=
  (c.tools.map (fun t => t.listChanged)).getD false

/-- The `subscribe` flag of the resources capability, false when absent. -/
def resourcesSubscribeFlag (c : ServerCapabilities γ) : Bool :=
  (c.resources.map (fun r => r.subscribe)).getD false

/-- The `listChanged` flag of the resources capability, false when absent. -/
def resourcesListChangedFlag (c : ServerCapabilities γ) : Bool :=
  (c.resources.map (fun r => r.listChanged)).getD false

/-- The `listChanged` flag of the prompts capability, false when absent. -/
def promptsListChangedFlag (c : ServerCapabilities γ) : Bool :=
  (c.prompts.map (fun p => p.listChanged)).getD false

theorem unionCapsFold_toolsLC (l : List (Option (ServerCapabilities γ)))
    (acc : ServerCapabilities γ) :
    toolsListChangedFlag (unionCapsFold acc l) =
      (toolsListChangedFlag acc ||
        l.any (fun oc => (oc.map toolsListChangedFlag).getD false)) := by
  induction l generalizing acc with
  | nil => simp [unionCapsFold]
  | cons oc rest ih =>
      cases oc with
      | none =>
          rw [unionCapsFold, ih]
          simp
      | some c =>
          rw [unionCapsFold, ih]
          have hm : toolsListChangedFlag (mergeOneCapabilities acc c) =
              (toolsListChangedFlag acc || toolsListChangedFlag c) := by
            unfold toolsListChangedFlag
            rw [mergeOne_tools]
            cases c.tools <;> cases acc.tools <;> simp
          rw [hm]
          simp [Bool.or_assoc]

theorem unionCapsFold_resourcesSub (l : List (Option (ServerCapabilities γ)))
    (acc : ServerCapabilities γ) :
    resourcesSubscribeFlag (unionCapsFold acc l) =
      (resourcesSubscribeFlag acc ||
        l.any (fun oc => (oc.map resourcesSubscribeFlag).getD false)) := by
  induction l generalizing acc with
  | nil => simp [unionCapsFold]
  | cons oc rest ih =>
      cases oc with
      | none =>
          rw [unionCapsFold, ih]
          simp
      | some c =>
          rw [unionCapsFold, ih]
          have hm : resourcesSubscribeFlag (mergeOneCapabilities acc c) =
              (resourcesSubscribeFlag acc || resourcesSubscribeFlag c) := by
            unfold resourcesSubscribeFlag
            rw [mergeOne_resources]
            cases c.resources <;> cases acc.resources <;> simp
          rw [hm]
          simp [Bool.or_assoc]

theorem unionCapsFold_resourcesLC (l : List (Option (ServerCapabilities γ)))
    (acc : ServerCapabilities γ) :
    resourcesListChangedFlag (unionCapsFold acc l) =
      (resourcesListChangedFlag acc ||
        l.any (fun oc => (oc.map resourcesListChangedFlag).getD false)) := by
  induction l generalizing acc with
  | nil => simp [unionCapsFold]
  | cons oc rest ih =>
      cases oc with
      | none =>
          rw [unionCapsFold, ih]
          simp
      | some c =>
          rw [unionCapsFold, ih]
          have hm : resourcesListChangedFlag (mergeOneCapabilities acc c) =
              (resourcesListChangedFlag acc || resourcesListChangedFlag c) := by
            unfold resourcesListChangedFlag
            rw [mergeOne_resources]
            cases c.resources <;> cases acc.resources <;> simp
          rw [hm]
          simp [Bool.or_assoc]

theorem unionCapsFold_promptsLC (l : List (Option (ServerCapabilities γ)))
    (acc : ServerCapabilities γ) :
    promptsListChangedFlag (unionCapsFold acc l) =
      (promptsListChangedFlag acc ||
        l.any (fun oc => (oc.map promptsListChangedFlag).getD false)) := by
  induction l generalizing acc with
  | nil => simp [unionCapsFold]
  | cons oc rest ih =>
      cases oc with
      | none =>
          rw [unionCapsFold, ih]
          simp
      | some c =>
          rw [unionCapsFold, ih]
          have hm : promptsListChangedFlag (mergeOneCapabilities acc c) =
              (promptsListChangedFlag acc || promptsListChangedFlag c) := by
            unfold promptsListChangedFlag
            rw [mergeOne_prompts]
            cases c.prompts <;> cases acc.prompts <;> simp
          rw [hm]
          simp [Bool.or_assoc]

theorem unionCapsFold_completions (l : List (Option (ServerCapabilities γ)))
    (acc : ServerCapabilities γ) :
    (unionCapsFold acc l).completions =
      (acc.completions <|> l.findSome? (fun oc => oc.bind (fun sc => sc.completions))) := by
  induction l generalizing acc with
  | nil => cases hc : acc.completions <;> simp [unionCapsFold, hc]
  | cons oc rest ih =>
      cases oc with
      | none =>
          rw [unionCapsFold, ih]
          simp [List.findSome?]
      | some c =>
          rw [unionCapsFold, ih]
          rw [mergeOne_completions]
          cases hac : acc.completions <;> cases hcc : c.completions <;>
            simp [List.findSome?, hac, hcc]

theorem unionCapsFold_logging (l : List (Option (ServerCapabilities γ)))
    (acc : ServerCapabilities γ) :
    (unionCapsFold acc l).logging =
      (acc.logging <|> l.findSome? (fun oc => oc.bind (fun sc => sc.logging))) := by
  induction l generalizing acc with
  | nil => cases hc : acc.logging <;> simp [unionCapsFold, hc]
  | cons oc rest ih =>
      cases oc with
      | none =>
          rw [unionCapsFold, ih]
          simp [List.findSome?]
      | some c =>
          rw [unionCapsFold, ih]
          rw [mergeOne_logging]
          cases hac : acc.logging <;> cases hcc : c.logging <;>
            simp [List.findSome?, hac, hcc]

theorem unionCapsFold_experimental (k : GoStr) (l : List (Option (ServerCapabilities γ)))
    (acc : ServerCapabilities γ) :
    ((unionCapsFold acc l).experimental.getD []).lookup k =
      (((acc.experimental.getD []).lookup k) <|>
        l.findSome? (fun oc => oc.bind (fun sc => (sc.experimental.getD []).lookup k))) := by
  induction l generalizing acc with
  | nil => cases h : (acc.experimental.getD []).lookup k <;> simp [unionCapsFold, h]
  | cons oc rest ih =>
      cases oc with
      | none =>
          rw [unionCapsFold, ih]
          simp [List.findSome?]
      | some c =>
          rw [unionCapsFold, ih]
          have hm : ((mergeOneCapabilities acc c).experimental.getD []).lookup k =
              (((acc.experimental.getD []).lookup k) <|>
                ((c.experimental.getD []).lookup k)) := by
            rw [mergeOne_experimental]
            cases hce : c.experimental with
            | none =>
                simp only [Option.getD]
                cases h : (acc.experimental.getD []).lookup k <;> simp [h]
            | some ex =>
                simp only [Option.getD_some]
                rw [mergeExperimental_lookup]
          rw [hm]
          cases h1 : (acc.experimental.getD []).lookup k <;>
            cases h2 : (c.experimental.getD []).lookup k <;>
            simp [List.findSome?, h1, h2]

theorem any_opt_iff (l : List (Option α)) (p : α → Bool) :
    (l.any (fun oc => (oc.map p).getD false) = true) ↔
      ∃ sc : α, some sc ∈ l ∧ p sc = true := by
  rw [List.any_eq_true]
  constructor
  · rintro ⟨oc, hmem, hp⟩
    cases oc with
    | none => simp at hp
    | some sc => exact ⟨sc, hmem, by simpa using hp⟩
  · rintro ⟨sc, hmem, hp⟩
    exact ⟨some sc, hmem, by simpa using hp⟩

/-- C3: `unionCapabilities` advertises tools/resources/prompts iff at
least one input does; each boolean sub-flag (`tools.listChanged`,
`resources.subscribe`, `resources.listChanged`, `prompts.listChanged`) is
true in the union iff it is true in at least one input; `completions`
and `logging` take the first non-nil input value; and the experimental
map is the key-wise union of the inputs, first writer winning on a key
collision (the lookup of every key in the union equals the first
successful lookup across the inputs in order). -/
theorem C3_unionCapabilities (γ : Type) (l : List (Option (ServerCapabilities γ))) :
    ((unionCapabilities l).tools.isSome = true ↔
       ∃ sc : ServerCapabilities γ, some sc ∈ l ∧ sc.tools.isSome = true) ∧
    ((unionCapabilities l).resources.isSome = true ↔
       ∃ sc : ServerCapabilities γ, some sc ∈ l ∧ sc.resources.isSome = true) ∧
    ((unionCapabilities l).prompts.isSome = true ↔
       ∃ sc : ServerCapabilities γ, some sc ∈ l ∧ sc.prompts.isSome = true) ∧
    (toolsListChangedFlag (unionCapabilities l) = true ↔
       ∃ sc : ServerCapabilities γ, some sc ∈ l ∧ toolsListChangedFlag sc = true) ∧
    (resourcesSubscribeFlag (unionCapabilities l) = true ↔
       ∃ sc : ServerCapabilities γ, some sc ∈ l ∧ resourcesSubscribeFlag sc = true) ∧
    (resourcesListChangedFlag (unionCapabilities l) = true ↔
       ∃ sc : ServerCapabilities γ, some sc ∈ l ∧ resourcesListChangedFlag sc = true) ∧
    (promptsListChangedFlag (unionCapabilities l) = true ↔
       ∃ sc : ServerCapabilities γ, some sc ∈ l ∧ promptsListChangedFlag sc = true) ∧
    ((unionCapabilities l).completions =
       l.findSome? (fun oc => oc.bind (fun sc => sc.completions))) ∧
    ((unionCapabilities l).logging =
       l.findSome? (fun oc => oc.bind (fun sc => sc.logging))) ∧
    (∀ k : GoStr, ((unionCapabilities l).experimental.getD []).lookup k =
       l.findSome? (fun oc => oc.bind (fun sc => (sc.experimental.getD []).lookup k))) := by
  refine ⟨?_, ?_, ?_, ?_, ?_, ?_, ?_, ?_, ?_, ?_⟩
  · rw [unionCapabilities, unionCapsFold_tools_isSome,
      show ({} : ServerCapabilities γ).tools.isSome = false from rfl, Bool.false_or]
    exact any_opt_iff l _
  · rw [unionCapabilities, unionCapsFold_resources_isSome,
      show ({} : ServerCapabilities γ).resources.isSome = false from rfl, Bool.false_or]
    exact any_opt_iff l _
  · rw [unionCapabilities, unionCapsFold_prompts_isSome,
      show ({} : ServerCapabilities γ).prompts.isSome = false from rfl, Bool.false_or]
    exact any_opt_iff l _
  · rw [unionCapabilities, unionCapsFold_toolsLC,
      show toolsListChangedFlag ({} : ServerCapabilities γ) = false from rfl, Bool.false_or]
    exact any_opt_iff l _
  · rw [unionCapabilities, unionCapsFold_resourcesSub,
      show resourcesSubscribeFlag ({} : ServerCapabilities γ) = false from rfl, Bool.false_or]
    exact any_opt_iff l _
  · rw [unionCapabilities, unionCapsFold_resourcesLC,
      show resourcesListChangedFlag ({} : ServerCapabilities γ) = false from rfl, Bool.false_or]
    exact any_opt_iff l _
  · rw [unionCapabilities, unionCapsFold_promptsLC,
      show promptsListChangedFlag ({} : ServerCapabilities γ) = false from rfl, Bool.false_or]
    exact any_opt_iff l _
  · rw [unionCapabilities, unionCapsFold_completions,
      show ({} : ServerCapabilities γ).completions = none from rfl]
    simp
  · rw [unionCapabilities, unionCapsFold_logging,
      show ({} : ServerCapabilities γ).logging = none from rfl]
    simp
  · intro k
    rw [unionCapabilities, unionCapsFold_experimental,
      show ((({} : ServerCapabilities γ).experimental.getD []).lookup k) = none from rfl]
    simp

/-- C8: registering through `WithVariant` panics (modelled `none`)
iff the new ID equals the ID of a previously registered variant; on
success the descriptor is appended with the given priority recorded on
it; `Variants()` returns the registered descriptors in registration
order (a copy built by mapping over the registry, so a caller re-sorting
the returned slice — e.g. a custom ranking function installed with
`WithRanking` — leaves the stored order unchanged). -/
theorem C8_registration (s : Server) (v : ServerVariant) (b : Backend) (p : Int)
    (fn : RankingFunc) :
    (s.WithVariant v b p = none ↔ ∃ w ∈ s.Variants, w.ID = v.ID) ∧
    (∀ s' : Server, s.WithVariant v b p = some s' →
       s'.Variants = s.Variants ++ [{ v with priority := p }] ∧
       ∃ w : ServerVariant, s'.Variants.getLast? = some w ∧ w.ID = v.ID ∧ w.Priority = p) ∧
    (s.Variants = s.variants.map (fun e => e.variant)) ∧
    ((s.WithRanking fn).Variants = s.Variants) := by
  refine ⟨?_, ?_, rfl, rfl⟩
  · rw [Server.WithVariant, Server.addVariant]
    by_cases h : s.variants.any (fun e => e.variant.ID == v.ID) = true
    · rw [if_pos h]
      constructor
      · intro _
        rcases List.any_eq_true.mp h with ⟨e, he, hbeq⟩
        exact ⟨e.variant, List.mem_map.mpr ⟨e, he, rfl⟩, by simpa using hbeq⟩
      · intro _
        rfl
    · rw [if_neg h]
      constructor
      · intro hc
        exact absurd hc (by simp)
      · rintro ⟨w, hw, hid⟩
        exfalso
        apply h
        rcases List.mem_map.mp hw with ⟨e, he, hev⟩
        exact List.any_eq_true.mpr ⟨e, he, by simp [hev, hid]⟩
  · intro s' hs'
    rw [Server.WithVariant, Server.addVariant] at hs'
    by_cases h : s.variants.any (fun e => e.variant.ID == v.ID) = true
    · rw [if_pos h] at hs'
      exact absurd hs' (by simp)
    · rw [if_neg h] at hs'
      have hval := Option.some.inj hs'
      subst hval
      constructor
      · simp only [Server.Variants, List.map_append, List.map_cons, List.map_nil]
      · refine ⟨{ v with priority := p }, ?_, rfl, rfl⟩
        rw [show Server.Variants { s with variants := s.variants ++
              [{ variant := { v with priority := p }, backend := b }] } =
            s.Variants ++ [{ v with priority := p }] from by
              simp only [Server.Variants, List.map_append, List.map_cons, List.map_nil]]
        exact List.getLast?_concat _

/-- A backend fixture whose connect fails. -/
def bX : Backend := { connectResult := .error (.other "x") }

/-- A bare variant descriptor fixture. -/
def vA : ServerVariant := { ID := gs "a" }

/-- `vA` as stored after registration with priority 7. -/
def vA7 : ServerVariant := { ID := gs "a", priority := 7 }

/-- The registry holding exactly `vA7`. -/
def sA7 : Server := { variants := [{ variant := vA7, backend := bX }] }

theorem C8_registration_witness :
    (Server.WithVariant { } vA bX 7 = some sA7) ∧
    (sA7.Variants = Server.Variants { } ++ [{ vA with priority := 7 }] ∧
     ∃ w : ServerVariant, sA7.Variants.getLast? = some w ∧ w.ID = vA.ID ∧ w.Priority = 7) :=
  ⟨rfl, (C8_registration { } vA bX 7 defaultRankingFunc).2.1 sA7 rfl⟩

theorem lookup_setKey (l : List (GoStr × α)) (k : GoStr) (v : α) :
    (setKey l k v).lookup k = some v := by
  induction l with
  | nil => simp [setKey, List.lookup]
  | cons p rest ih =>
      rcases p with ⟨k2, v2⟩
      rw [setKey]
      by_cases h : (k2 == k) = true
      · rw [if_pos h]
        simp [List.lookup]
      · rw [if_neg h]
        simp only [List.lookup]
        cases hbeq : k == k2
        · exact ih
        · exfalso
          apply h
          have hk : k = k2 := by simpa using hbeq
          simp [hk]

theorem variantPayload_lookup (v : ServerVariant) :
    jObjLookup (variantPayload v) (gs "id") = some (.str v.ID) ∧
    jObjLookup (variantPayload v) (gs "description") = some (.str v.Description) ∧
    jObjLookup (variantPayload v) (gs "hints") =
      v.Hints.map (fun h => JValue.obj (h.map (fun p => (p.1, JValue.str p.2)))) ∧
    jObjLookup (variantPayload v) (gs "status") =
      (if v.Status ≠ [] then some (JValue.str v.Status) else none) ∧
    jObjLookup (variantPayload v) (gs "deprecationInfo") =
      v.deprecationInfo.map deprecationPayload := by
  rcases hH : v.Hints with _ | h <;> rcases hD : v.deprecationInfo with _ | d <;>
    simp only [variantPayload, jObjLookup, hH, hD] <;>
    split_ifs with hS <;>
    exact ⟨rfl, rfl, rfl, rfl, rfl⟩

/-- C9: for every `initialize` response, `enrichInitResult` stores under
`capabilities.experimental["io.modelcontextprotocol/server-variants"]` an
object whose `availableVariants` lists, in rank order, the payloads of the
variants ranked with the hints extracted from the client request; each
entry carries `id` and `description` always, and `hints`, `status`,
`deprecationInfo` exactly when set on the descriptor; and
`moreVariantsAvailable` equals (ranked count < registered count). -/
theorem C9_enrichInitResult (s : Server) (req : InitRequest) (r : InitializeResult) :
    ∃ caps : ServerCapabilities JValue, ∃ payload : JValue,
      s.enrichInitResult (.initResult r) req = .initResult { capabilities := some caps } ∧
      caps.experimental.isSome = true ∧
      (caps.experimental.getD []).lookup extensionID = some payload ∧
      jObjLookup payload (gs "availableVariants") =
        some (.arr ((s.RankedVariants (extractVariantHints req)).map variantPayload)) ∧
      jObjLookup payload (gs "moreVariantsAvailable") =
        some (.bool (decide ((s.RankedVariants (extractVariantHints req)).length <
                             s.Variants.length))) ∧
      ∀ v ∈ s.RankedVariants (extractVariantHints req),
        jObjLookup (variantPayload v) (gs "id") = some (.str v.ID) ∧
        jObjLookup (variantPayload v) (gs "description") = some (.str v.Description) ∧
        jObjLookup (variantPayload v) (gs "hints") =
          v.Hints.map (fun h => JValue.obj (h.map (fun p => (p.1, JValue.str p.2)))) ∧
        jObjLookup (variantPayload v) (gs "status") =
          (if v.Status ≠ [] then some (JValue.str v.Status) else none) ∧
        jObjLookup (variantPayload v) (gs "deprecationInfo") =
          v.deprecationInfo.map deprecationPayload := by
  have hlen : s.Variants.length = s.variants.length := by simp [Server.Variants]
  refine ⟨{ r.capabilities.getD {} with
              experimental := some (setKey ((r.capabilities.getD {}).experimental.getD [])
                extensionID
                (JValue.obj [
                  (gs "availableVariants",
                   .arr ((s.RankedVariants (extractVariantHints req)).map variantPayload)),
                  (gs "moreVariantsAvailable",
                   .bool (decide ((s.RankedVariants (extractVariantHints req)).length <
                                  s.variants.length)))])) },
          JValue.obj [
            (gs "availableVariants",
             .arr ((s.RankedVariants (extractVariantHints req)).map variantPayload)),
            (gs "moreVariantsAvailable",
             .bool (decide ((s.RankedVariants (extractVariantHints req)).length <
                            s.variants.length)))],
          rfl, rfl, lookup_setKey _ _ _, rfl, ?_, ?_⟩
  · rw [hlen]
    rfl
  · intro v _
    exact variantPayload_lookup v

/-- A one-variant registry fixture. -/
def s9 : Server :=
  { variants := [{ variant := { ID := gs "a" },
                   backend := { connectResult := .error (.other "x") } }] }

theorem C9_enrichInitResult_witness :
    ∃ caps : ServerCapabilities JValue, ∃ payload : JValue,
      s9.enrichInitResult (.initResult { }) { } = .initResult { capabilities := some caps } ∧
      caps.experimental.isSome = true ∧
      (caps.experimental.getD []).lookup extensionID = some payload ∧
      jObjLookup payload (gs "availableVariants") =
        some (.arr ((s9.RankedVariants (extractVariantHints { })).map variantPayload)) ∧
      jObjLookup payload (gs "moreVariantsAvailable") =
        some (.bool (decide ((s9.RankedVariants (extractVariantHints { })).length <
                             s9.Variants.length))) ∧
      ∀ v ∈ s9.RankedVariants (extractVariantHints { }),
        jObjLookup (variantPayload v) (gs "id") = some (.str v.ID) ∧
        jObjLookup (variantPayload v) (gs "description") = some (.str v.Description) ∧
        jObjLookup (variantPayload v) (gs "hints") =
          v.Hints.map (fun h => JValue.obj (h.map (fun p => (p.1, JValue.str p.2)))) ∧
        jObjLookup (variantPayload v) (gs "status") =
          (if v.Status ≠ [] then some (JValue.str v.Status) else none) ∧
        jObjLookup (variantPayload v) (gs "deprecationInfo") =
          v.deprecationInfo.map deprecationPayload :=
  C9_enrichInitResult s9 { } { }

/-! ## Properties of the dispatcher -/

theorem lookup_eq_none_iff (l : List (GoStr × β)) (k : GoStr) :
    l.lookup k = none ↔ k ∉ l.map Prod.fst := by
  induction l with
  | nil => simp [List.lookup]
  | cons p rest ih =>
      rcases p with ⟨k2, v⟩
      simp only [List.lookup, List.map_cons, List.mem_cons]
      cases hbeq : k == k2
      · have hne : k ≠ k2 := by simpa using hbeq
        constructor
        · intro h hk
          rcases hk with hk | hk
          · exact hne hk
          · exact (ih.mp h) hk
        · intro h
          exact ih.mpr (fun hk => h (Or.inr hk))
      · have heq : k = k2 := by simpa using hbeq
        constructor
        · intro h
          exact absurd h (by simp)
        · intro h
          exact absurd (Or.inl heq) h

theorem getSession_invalid (d : dispatcher) (req : RoutedRequest)
    (hmeta : variantIDFromMeta req ≠ [])
    (hnomatch : d.connections.lookup (variantIDFromMeta req) = none) :
    d.getSession req = .error (d.createInvalidVariantError (variantIDFromMeta req)) := by
  simp only [dispatcher.getSession]
  rw [if_neg hmeta]
  dsimp only
  rw [hnomatch]

/-- The invalid-variant error value, spelled out. -/
theorem createInvalidVariantError_eq (d : dispatcher) (w : GoStr) :
    d.createInvalidVariantError w =
      .jsonrpc { code := -32602,
                 message := "Invalid server variant",
                 data := some (.obj [(gs "requestedVariant", .str w),
                   (gs "availableVariants",
                    .arr (((d.server.RankedVariants {}).map (fun v => v.ID)).map
                      JValue.str))]) } := rfl

theorem handle_invalid_variant (d : dispatcher) (req : RoutedRequest)
    (next : Except GoError (Option DispatchResult)) (method : String)
    (hmeta : variantIDFromMeta req ≠ [])
    (hnomatch : d.connections.lookup (variantIDFromMeta req) = none)
    (hm : method = "tools/list" ∨ method = "resources/list" ∨ method = "prompts/list" ∨
          method = "resources/templates/list" ∨ method = "tools/call" ∨
          method = "resources/read" ∨ method = "prompts/get" ∨
          method = "resources/subscribe" ∨ method = "resources/unsubscribe" ∨
          method = "completion/complete") :
    d.handle method req next =
      .error (.jsonrpc { code := -32602,
                         message := "Invalid server variant",
                         data := some (.obj [(gs "requestedVariant",
                             .str (variantIDFromMeta req)),
                           (gs "availableVariants",
                            .arr (((d.server.RankedVariants {}).map (fun v => v.ID)).map
                              JValue.str))]) }) := by
  have hget := getSession_invalid d req hmeta hnomatch
  rw [← createInvalidVariantError_eq]
  rcases hm with rfl | rfl | rfl | rfl | rfl | rfl | rfl | rfl | rfl | rfl
  · rw [dispatcher.handle, if_pos (by decide), dispatcher.handleList, hget]
  · rw [dispatcher.handle, if_pos (by decide), dispatcher.handleList, hget]
  · rw [dispatcher.handle, if_pos (by decide), dispatcher.handleList, hget]
  · rw [dispatcher.handle, if_pos (by decide), dispatcher.handleList, hget]
  · rw [dispatcher.handle, if_neg (by decide), if_pos (by decide), dispatcher.handleCall, hget]
  · rw [dispatcher.handle, if_neg (by decide), if_pos (by decide), dispatcher.handleCall, hget]
  · rw [dispatcher.handle, if_neg (by decide), if_pos (by decide), dispatcher.handleCall, hget]
  · rw [dispatcher.handle, if_neg (by decide), if_neg (by decide), if_pos (by decide),
      dispatcher.handleSubscribe, hget]
  · rw [dispatcher.handle, if_neg (by decide), if_neg (by decide), if_neg (by decide),
      if_pos (by decide), dispatcher.handleUnsubscribe, hget]
  · rw [dispatcher.handle, if_neg (by decide), if_neg (by decide), if_neg (by decide),
      if_neg (by decide), if_pos (by decide), dispatcher.handleCompletion, hget]

/-- C5: a dispatched request whose `_meta` variant selector matches no
registered variant fails with `-32602 "Invalid server variant"` carrying
`requestedVariant` and the available variant IDs in rank order; and no
inner session is contacted — the outcome is unchanged when every inner
session behind the connection table is replaced (same keys, same
server). -/
theorem C5_invalid_variant (d : dispatcher) (req : RoutedRequest)
    (next : Except GoError (Option DispatchResult)) (method : String)
    (hmeta : variantIDFromMeta req ≠ [])
    (hnomatch : d.connections.lookup (variantIDFromMeta req) = none)
    (hm : method = "tools/list" ∨ method = "resources/list" ∨ method = "prompts/list" ∨
          method = "resources/templates/list" ∨ method = "tools/call" ∨
          method = "resources/read" ∨ method = "prompts/get" ∨
          method = "resources/subscribe" ∨ method = "resources/unsubscribe" ∨
          method = "completion/complete") :
    d.handle method req next =
      .error (.jsonrpc { code := -32602,
                         message := "Invalid server variant",
                         data := some (.obj [(gs "requestedVariant",
                             .str (variantIDFromMeta req)),
                           (gs "availableVariants",
                            .arr (((d.server.RankedVariants {}).map (fun v => v.ID)).map
                              JValue.str))]) }) ∧
    (∀ d' : dispatcher, d'.server = d.server →
       d'.connections.map Prod.fst = d.connections.map Prod.fst →
       d'.handle method req next = d.handle method req next) := by
  refine ⟨handle_invalid_variant d req next method hmeta hnomatch hm, ?_⟩
  intro d' hsrv hkeys
  have hnomatch' : d'.connections.lookup (variantIDFromMeta req) = none := by
    rw [lookup_eq_none_iff, hkeys]
    exact (lookup_eq_none_iff _ _).mp hnomatch
  rw [handle_invalid_variant d req next method hmeta hnomatch hm,
    handle_invalid_variant d' req next method hmeta hnomatch' hm, hsrv]

/-- An inner session whose every RPC trivially succeeds. -/
def dummySession : InnerSession :=
  { listTools := fun _ => .ok none
    listResources := fun _ => .ok none
    listPrompts := fun _ => .ok none
    listResourceTemplates := fun _ => .ok none
    callTool := fun _ => .ok .null
    readResource := fun _ => .ok .null
    getPrompt := fun _ => .ok .null
    subscribe := fun _ => .ok ()
    unsubscribe := fun _ => .ok ()
    complete := fun _ => .ok .null }

/-- A dispatcher with a single registered variant `"a"`. -/
def d5 : dispatcher :=
  { server := { variants := [{ variant := { ID := gs "a" },
                               backend := { connectResult := .error (.other "x") } }] },
    connections := [(gs "a", { clientSession := dummySession })] }

/-- A request selecting the unregistered variant `"z"`. -/
def req5 : RoutedRequest :=
  { meta := some [(metaKeyVariant, .str (gs "z"))], params := .noParams }

theorem C5_invalid_variant_witness :
    (variantIDFromMeta req5 ≠ []) ∧
    (d5.connections.lookup (variantIDFromMeta req5) = none) ∧
    ((d5.handle "tools/call" req5 (.ok none) =
        .error (.jsonrpc { code := -32602,
                           message := "Invalid server variant",
                           data := some (.obj [(gs "requestedVariant",
                               .str (variantIDFromMeta req5)),
                             (gs "availableVariants",
                              .arr (((d5.server.RankedVariants {}).map (fun v => v.ID)).map
                                JValue.str))]) })) ∧
      (∀ d' : dispatcher, d'.server = d5.server →
         d'.connections.map Prod.fst = d5.connections.map Prod.fst →
         d'.handle "tools/call" req5 (.ok none) = d5.handle "tools/call" req5 (.ok none))) :=
  ⟨by decide, rfl,
   C5_invalid_variant d5 req5 (.ok none) "tools/call" (by decide) rfl (by decide)⟩

theorem lookup_setKey_ne (l : List (GoStr × α)) (k k' : GoStr) (v : α) (h : k' ≠ k) :
    (setKey l k v).lookup k' = l.lookup k' := by
  induction l with
  | nil =>
      simp only [setKey, List.lookup]
      cases hbeq : k' == k
      · rfl
      · exact absurd (by simpa using hbeq) h
  | cons p rest ih =>
      rcases p with ⟨k2, v2⟩
      rw [setKey]
      by_cases h2 : (k2 == k) = true
      · rw [if_pos h2]
        have hk2 : k2 = k := by simpa using h2
        subst hk2
        simp only [List.lookup]
        cases hbeq : k' == k2
        · rfl
        · exact absurd (by simpa using hbeq) h
      · rw [if_neg h2]
        simp only [List.lookup]
        cases hbeq : k' == k2
        · exact ih
        · rfl

/-- C6: `enrichError` adds `activeVariant` (the resolved variant ID)
to the error data iff the error is a JSON-RPC error of code `-32602` or
`-32601`: any other error (non-JSON-RPC, or any other code) is returned
unchanged; in the enriched error all pre-existing data fields are
preserved under their keys, with `activeVariant` set; the enriched value
is a freshly constructed error (the embedding is pure, so the caller's
error is never mutated); and an inner `tools/call` failure surfaces from
the dispatcher exactly as the enriched error. -/
theorem C6_enrichError (err : GoError) (w : GoStr) :
    (∀ msg : String, err = .other msg → enrichError err w = err) ∧
    (∀ jErr : JsonRpcError, err = .jsonrpc jErr →
       (jErr.code = -32602 ∨ jErr.code = -32601) →
       ∃ fields : List (GoStr × JValue),
         enrichError err w = .jsonrpc { code := jErr.code,
                                        message := jErr.message,
                                        data := some (.obj fields) } ∧
         fields.lookup (gs "activeVariant") = some (.str w) ∧
         ∀ k : GoStr, k ≠ gs "activeVariant" →
           fields.lookup k = (match jErr.data with
                              | some (.obj f) => f
                              | _ => ([] : List (GoStr × JValue))).lookup k) ∧
    (∀ jErr : JsonRpcError, err = .jsonrpc jErr →
       jErr.code ≠ -32602 → jErr.code ≠ -32601 → enrichError err w = err) ∧
    (∀ (d : dispatcher) (req : RoutedRequest) (raw : CallToolParamsRaw) (w' : GoStr)
       (sess : InnerSession),
       d.getSession req = .ok (w', sess) →
       req.params = .callToolP (some raw) →
       sess.callTool { meta := raw.meta, name := raw.name, arguments := raw.arguments } =
         .error err →
       d.handleCall "tools/call" req = .error (enrichError err w')) := by
  refine ⟨?_, ?_, ?_, ?_⟩
  · intro msg h
    subst h
    rfl
  · intro jErr h hcode
    subst h
    refine ⟨setKey (match jErr.data with
                    | some (.obj f) => f
                    | _ => ([] : List (GoStr × JValue))) (gs "activeVariant") (.str w),
            ?_, lookup_setKey _ _ _, fun k hk => lookup_setKey_ne _ _ _ _ hk⟩
    rw [enrichError]
    dsimp only
    rw [if_pos (show jErr.code = codeInvalidParams ∨ jErr.code = codeMethodNotFound from hcode)]
  · intro jErr h hc1 hc2
    subst h
    rw [enrichError]
    dsimp only
    rw [if_neg ?_]
    rintro (hc | hc)
    · exact hc1 hc
    · exact hc2 hc
  · intro d req raw w' sess hget hparams hcall
    rw [dispatcher.handleCall, hget]
    dsimp only
    rw [if_pos rfl, hparams]
    dsimp only
    rw [hcall]

theorem C6_enrichError_witness :
    (enrichError (.other "boom") (gs "a") = .other "boom") ∧
    (∃ fields : List (GoStr × JValue),
       enrichError (.jsonrpc { code := -32602,
                               message := "m",
                               data := some (.obj [(gs "x", JValue.null)]) }) (gs "a") =
         .jsonrpc { code := -32602, message := "m", data := some (.obj fields) } ∧
       fields.lookup (gs "activeVariant") = some (.str (gs "a")) ∧
       ∀ k : GoStr, k ≠ gs "activeVariant" →
         fields.lookup k = [(gs "x", JValue.null)].lookup k) :=
  ⟨(C6_enrichError (.other "boom") (gs "a")).1 "boom" rfl,
   (C6_enrichError (.jsonrpc { code := -32602,
                               message := "m",
                               data := some (.obj [(gs "x", JValue.null)]) }) (gs "a")).2.1
     { code := -32602, message := "m", data := some (.obj [(gs "x", JValue.null)]) }
     rfl (Or.inl rfl)⟩

/-! ## Properties of the session lifecycle -/

theorem csg_ok (s : Server) (entries : List variantEntry)
    (conns : List (GoStr × InnerConnection)) (st : sessionState)
    (h : (createSessionStateGo s entries conns).1 = .ok st) :
    st.dispatcher.connections.map Prod.fst =
      conns.map Prod.fst ++ entries.map (fun e => e.variant.ID) ∧
    st.dispatcher.server = s ∧ (createSessionStateGo s entries conns).2 = [] := by
  induction entries generalizing conns with
  | nil =>
      have hst : ({ dispatcher := { server := s, connections := conns } } : sessionState) = st := by
        exact Option.some.inj (congrArg (fun r => match r with
          | Except.ok v => some v
          | Except.error _ => none) h)
      subst hst
      exact ⟨by simp, rfl, rfl⟩
  | cons ent rest ih =>
      rw [createSessionStateGo] at h ⊢
      cases hc : ent.backend.connectResult with
      | error err =>
          rw [hc] at h
          exact absurd h (by simp)
      | ok conn =>
          rw [hc] at h
          rcases ih (conns ++ [(ent.variant.ID, conn)]) h with ⟨h1, h2, h3⟩
          refine ⟨?_, h2, h3⟩
          rw [h1]
          simp

theorem csg_err (s : Server) (pre post : List variantEntry) (bad : variantEntry)
    (e : GoError) (conns : List (GoStr × InnerConnection))
    (hall : ∀ ent ∈ pre, ∃ c, ent.backend.connectResult = .ok c)
    (hbad : bad.backend.connectResult = .error e) :
    createSessionStateGo s (pre ++ bad :: post) conns =
      (.error e, conns.map Prod.fst ++ pre.map (fun ent => ent.variant.ID)) := by
  induction pre generalizing conns with
  | nil =>
      rw [List.nil_append, createSessionStateGo, hbad]
      simp
  | cons ent rest ih =>
      rcases hall ent (List.mem_cons_self ent rest) with ⟨c, hc⟩
      rw [List.cons_append, createSessionStateGo, hc]
      dsimp only
      rw [ih (conns ++ [(ent.variant.ID, c)]) (fun x hx => hall x (List.mem_cons_of_mem ent hx))]
      simp

/-- C7: `createSessionState` is atomic — if connecting any backend
fails, the error is returned, the IDs closed are exactly the
connections already created (those of the entries before the failing
one), and the `initialize` middleware fails without storing any session
state; on success the state holds exactly one inner connection per
registered variant, keyed by variant ID in registration order. -/
theorem C7_createSessionState (s : Server) :
    (∀ st : sessionState, (s.createSessionState).1 = .ok st →
       st.dispatcher.connections.map Prod.fst = s.variants.map (fun e => e.variant.ID) ∧
       st.dispatcher.server = s ∧
       (s.createSessionState).2 = []) ∧
    (∀ (pre post : List variantEntry) (bad : variantEntry) (e : GoError),
       s.variants = pre ++ bad :: post →
       (∀ ent ∈ pre, ∃ c, ent.backend.connectResult = .ok c) →
       bad.backend.connectResult = .error e →
       s.createSessionState = (.error e, pre.map (fun ent => ent.variant.ID))) ∧
    (∀ (sessions : List (Nat × sessionState)) (ss : Nat) (result : McpResult)
       (req : InitRequest) (e : GoError),
       (s.createSessionState).1 = .error e →
       sessionMiddlewareInit s sessions ss (.ok result) req = (.error e, sessions)) := by
  refine ⟨?_, ?_, ?_⟩
  · intro st h
    rcases csg_ok s s.variants [] st h with ⟨h1, h2, h3⟩
    rw [Server.createSessionState]
    exact ⟨by simpa using h1, h2, h3⟩
  · intro pre post bad e hsplit hall hbad
    rw [Server.createSessionState, hsplit, csg_err s pre post bad e [] hall hbad]
    simp
  · intro sessions ss result req e h
    rw [sessionMiddlewareInit]
    rcases hcs : s.createSessionState with ⟨r, closed⟩
    rw [hcs] at h
    have hr : r = .error e := h
    subst hr
    rfl

/-- An entry whose backend connects successfully. -/
def entOk : variantEntry :=
  { variant := { ID := gs "a" },
    backend := { connectResult := .ok { clientSession := dummySession } } }

/-- An entry whose backend fails to connect. -/
def entBad : variantEntry :=
  { variant := { ID := gs "b" }, backend := { connectResult := .error (.other "x") } }

/-- Registry whose second backend fails. -/
def sC7 : Server := { variants := [entOk, entBad] }

/-- Registry whose single backend succeeds. -/
def sOK : Server := { variants := [entOk] }

/-- The session state built for `sOK`. -/
def stOK : sessionState :=
  { dispatcher := { server := sOK,
                    connections := [(gs "a", { clientSession := dummySession })] } }

theorem C7_createSessionState_witness :
    (sC7.createSessionState = (.error (.other "x"), [gs "a"])) ∧
    (sessionMiddlewareInit sC7 [] 0 (.ok .other) { } = (.error (.other "x"), [])) ∧
    (stOK.dispatcher.connections.map Prod.fst = sOK.variants.map (fun e => e.variant.ID) ∧
     stOK.dispatcher.server = sOK ∧
     (sOK.createSessionState).2 = []) :=
  ⟨(C7_createSessionState sC7).2.1 [entOk] [] entBad (.other "x") rfl
     (by
       intro ent hent
       rw [List.mem_singleton] at hent
       subst hent
       exact ⟨_, rfl⟩) rfl,
   (C7_createSessionState sC7).2.2 [] 0 .other { } (.other "x") rfl,
   (C7_createSessionState sOK).1 stOK rfl⟩

/-! ## The default-selection drift (`dispatch.go` `getSession`) -/

/-- The variant ID `getSession` resolves for a request, `none` on error. -/
def resolvedVariant (d : dispatcher) (req : RoutedRequest) : Option GoStr :=
  match d.getSession req with
  | .ok (w, _) => some w
  | .error _ => none

/-- A hint-sensitive ranking function: reverse the registration order
exactly when the client supplied a hints map. -/
def rankFnC1 : RankingFunc := fun hints vs => if hints.Hints.isSome then vs.reverse else vs

/-- Registry with variants `"a"`, `"b"` and the hint-sensitive ranking. -/
def sC1 : Server :=
  { variants := [{ variant := { ID := gs "a" },
                   backend := { connectResult := .error (.other "x") } },
                 { variant := { ID := gs "b" },
                   backend := { connectResult := .error (.other "x") } }],
    rankingFunc := some rankFnC1 }

/-- The dispatcher of an established session over `sC1`. -/
def dC1 : dispatcher :=
  { server := sC1,
    connections := [(gs "a", { clientSession := dummySession }),
                    (gs "b", { clientSession := dummySession })] }

/-- An `initialize` request whose experimental capabilities carry a
variant-hints map. -/
def expC1 : List (GoStr × JValue) :=
  [(extensionID, .obj [(gs "variantHints",
     .obj [(gs "hints", .obj [(gs "k", .str (gs "v"))])])])]

/-- See `expC1`. -/
def reqC1init : InitRequest :=
  { params := some { capabilities := some { experimental := some expC1 } } }

/-- A routed request with no `_meta` variant selector. -/
def reqC1noMeta : RoutedRequest := { }

/-- C1: refuted on the code — the claim says a request with no
`_meta` selector targets index 0 of the ranked list returned during
`initialize` with the client's hints, that ranking being the session's
only default.  With the hint-sensitive ranking `rankFnC1`, `initialize`
ranks `["b", "a"]` (the client sent hints), yet `getSession` re-ranks
with empty hints and resolves `"a"`: the dispatcher's default is the
head of a fresh empty-hints ranking, not the initialize-time ranking
(the source marks this deviation with a `BUG` comment). -/
theorem C1_default_selection_bug :
    resolvedVariant dC1 reqC1noMeta = some (gs "a") ∧
    ((sC1.RankedVariants (extractVariantHints reqC1init)).map (fun v => v.ID)).head? =
      some (gs "b") ∧
    some (gs "a") ≠ some (gs "b") :=
  ⟨rfl, rfl, by decide⟩

end Variants
